import Mathlib

/-!
Verification of the watercapture repository: a shallow embedding of the
data-normalization layer in `src/firestore_loader.py` and of the dashboard
glue in `src/dashboard.py` that consumes it, together with theorems about
the embedded operations.

Conventions of the embedding:

* Values occurring in Firestore reading documents are modelled by `PyVal`
  (Python `None`, `int`, `str`, pandas `Timestamp`, pandas `Timedelta`).
  `PyVal.vNone` also stands for the pandas missing values `NaT`/`NaN`: the
  loader only ever distinguishes them through `pd.isna`, which treats them
  alike.
* A Python dict is an insertion-ordered association list (`Dict`) with
  CPython's update-in-place / append-new-key semantics.
* The pandas parsers are external library behaviour and are taken as
  parameters: `parseDt` models `pd.to_datetime(s, errors="coerce")` on a
  string (`none` = `NaT`), `parseDtVal` the same on an arbitrary value, and
  `toTdCol` models `pd.to_timedelta` applied to a whole column (`none` =
  the call raised, in which case the loader keeps the column unchanged).
  `today` models `pd.Timestamp.today().normalize()`.
* The datastore state is the list of reading documents of the
  `watercapture/watercapture@ASU/readings` subcollection, in stream order.
-/

namespace Watercapture

/-- Timezone-naive pandas `Timestamp`, as the loader uses it: the explicit
field constructor `pd.Timestamp(year=..., ..., microsecond=...)` appears in
`_combine_date_time` (src/firestore_loader.py lines 109-112). -/
structure Timestamp where
  year : Int
  month : Nat
  day : Nat
  hour : Nat
  minute : Nat
  second : Nat
  microsecond : Nat
deriving DecidableEq, Repr

/-- Chronological comparison of timestamps: lexicographic on
(year, month, day, hour, minute, second, microsecond). -/
def Timestamp.lexLe (a b : Timestamp) : Prop :=
  a.year < b.year ∨ (a.year = b.year ∧ (a.month < b.month ∨ (a.month = b.month ∧
    (a.day < b.day ∨ (a.day = b.day ∧ (a.hour < b.hour ∨ (a.hour = b.hour ∧
      (a.minute < b.minute ∨ (a.minute = b.minute ∧ (a.second < b.second ∨
        (a.second = b.second ∧ a.microsecond ≤ b.microsecond)))))))))))

instance : DecidableRel Timestamp.lexLe := fun a b => by
  unfold Timestamp.lexLe; infer_instance

/-- A Python value as it can occur in a reading document or a derived row. -/
inductive PyVal where
  | vNone : PyVal
  | vInt (n : Int) : PyVal
  | vStr (s : String) : PyVal
  | vTs (t : Timestamp) : PyVal
  | vTd (micros : Int) : PyVal
deriving DecidableEq, Repr

/-- A Python dict: insertion-ordered association list. -/
abbrev Dict : Type := List (String × PyVal)

/-- First binding of a key, `none` when absent (`k in d` is `isSome`). -/
def dictLookup : Dict → String → Option PyVal
  | [], _ => none
  | (k, v) :: rest, key => if k = key then some v else dictLookup rest key

/-- Python `k in d`. -/
def dictHasKey (d : Dict) (key : String) : Bool :=
  (dictLookup d key).isSome

/-- Python `d.get(k)`: the value, or `None` when the key is absent. -/
def dictGet (d : Dict) (key : String) : PyVal :=
  (dictLookup d key).getD PyVal.vNone

/-- Python `d[k] = v`: update in place when the key exists (keeping its
position), append at the end otherwise. -/
def dictSet : Dict → String → PyVal → Dict
  | [], key, v => [(key, v)]
  | (k, w) :: rest, key, v =>
      if k = key then (k, v) :: rest else (k, w) :: dictSet rest key v

/-- Python `list(d.keys())`. -/
def dictKeys (d : Dict) : List String := d.map Prod.fst

/-- Python truthiness of a value, as used by `a or b` chains. -/
def pyTruthy : PyVal → Bool
  | PyVal.vNone => false
  | PyVal.vInt n => decide (n ≠ 0)
  | PyVal.vStr s => decide (s ≠ "")
  | PyVal.vTs _ => true
  | PyVal.vTd m => decide (m ≠ 0)

/-- Python `a or b`. -/
def pyOr (a b : PyVal) : PyVal := if pyTruthy a then a else b

/-- `pd.isna` on a scalar: true exactly on the missing values
(`None` / `NaT` / `NaN`, all represented by `vNone`). -/
def pdIsNa : PyVal → Bool
  | PyVal.vNone => true
  | _ => false

/-- The decimal digit character for `n < 10`. -/
def natDigitChar (n : Nat) : Char := Char.ofNat (48 + n)

/-- Decimal digits of `n`, most significant first; `fuel` bounds the
recursion (any `fuel > n` is exact). -/
def natCharsAux : Nat → Nat → List Char
  | 0, _ => []
  | fuel + 1, n =>
      if n < 10 then [natDigitChar n]
      else natCharsAux fuel (n / 10) ++ [natDigitChar (n % 10)]

/-- Decimal digits of a natural number, as Python `str` renders it. -/
def natChars (n : Nat) : List Char := natCharsAux (n + 1) n

/-- Python `str` of an `int` (with a leading minus sign when negative). -/
def intChars (n : Int) : List Char :=
  if n < 0 then '-' :: natChars n.natAbs else natChars n.toNat

/-- Left-pad with zeros to width `w`. -/
def padChars (w : Nat) (cs : List Char) : List Char :=
  List.replicate (w - cs.length) '0' ++ cs

/-- `str` of a pandas `Timestamp` (ISO format, fractional part only when
nonzero). -/
def tsStr (t : Timestamp) : String :=
  String.mk (padChars 4 (intChars t.year) ++ '-' :: padChars 2 (natChars t.month) ++
    '-' :: padChars 2 (natChars t.day) ++ ' ' :: padChars 2 (natChars t.hour) ++
    ':' :: padChars 2 (natChars t.minute) ++ ':' :: padChars 2 (natChars t.second) ++
    (if t.microsecond = 0 then [] else '.' :: padChars 6 (natChars t.microsecond)))

/-- `str` of a pandas `Timedelta` given in microseconds. -/
def tdStr (m : Int) : String :=
  let a := m.natAbs
  let days := a / 86400000000
  let rem := a % 86400000000
  let h := rem / 3600000000
  let rem2 := rem % 3600000000
  let mi := rem2 / 60000000
  let rem3 := rem2 % 60000000
  let s := rem3 / 1000000
  let us := rem3 % 1000000
  String.mk ((if m < 0 then ['-'] else []) ++ natChars days ++ (" days ").data ++
    padChars 2 (natChars h) ++ ':' :: padChars 2 (natChars mi) ++
    ':' :: padChars 2 (natChars s) ++
    (if us = 0 then [] else '.' :: padChars 6 (natChars us)))

/-- Python `str()` of a value. -/
def pyStr : PyVal → String
  | PyVal.vNone => "None"
  | PyVal.vInt n => String.mk (intChars n)
  | PyVal.vStr s => s
  | PyVal.vTs t => tsStr t
  | PyVal.vTd m => tdStr m

/-- Value of a digit string (assumes all characters are digits). -/
def digitsVal (cs : List Char) : Nat :=
  cs.foldl (fun a c => a * 10 + (c.toNat - 48)) 0

/-- A nonempty all-digit character list. -/
def allDigits (cs : List Char) : Bool := !cs.isEmpty && cs.all Char.isDigit

/-- Parse a digit run, `none` when empty or containing a non-digit. -/
def digitsToNat (cs : List Char) : Option Nat :=
  if allDigits cs then some (digitsVal cs) else none

/-- Python `str.strip()` of surrounding whitespace, at character level. -/
def stripChars (cs : List Char) : List Char :=
  ((cs.dropWhile Char.isWhitespace).reverse.dropWhile Char.isWhitespace).reverse

/-- Python `int(s)` on a string: optional surrounding whitespace, optional
sign, a nonempty digit run; `none` when `int` would raise `ValueError`. -/
def pyIntOfChars (cs : List Char) : Option Int :=
  match stripChars cs with
  | [] => none
  | c :: rest =>
      if c = '-' then (digitsToNat rest).map (fun n => -(n : Int))
      else if c = '+' then (digitsToNat rest).map (fun n => (n : Int))
      else (digitsToNat (c :: rest)).map (fun n => (n : Int))

/-- `_safe_int` (src/firestore_loader.py lines 71-75): `int(v)`, with any
failure mapped to `None`. -/
def safeInt (v : PyVal) : Option Int :=
  match v with
  | PyVal.vInt n => some n
  | PyVal.vStr s => pyIntOfChars s.data
  | _ => none

/-- Prepend a character onto the first group of a split result. -/
def splitConsHead (c : Char) : List (List Char) → List (List Char)
  | [] => [[c]]
  | g :: gs => (c :: g) :: gs

/-- Python `s.split(sep)` for a one-character separator. -/
def splitChar (sep : Char) : List Char → List (List Char)
  | [] => [[]]
  | c :: cs =>
      if c = sep then [] :: splitChar sep cs else splitConsHead c (splitChar sep cs)

/-- The final underscore-separated segment: `s.split("_")[-1]`. -/
def lastSegment (s : String) : List Char :=
  (splitChar '_' s.data).getLastD []

/-- The exceptions relevant to the dashboard: `FirestoreUnavailable`
(src/firestore_loader.py lines 25-27, carrying `user_msg`) and Python
`TypeError`. -/
inductive PyExc where
  | typeError (msg : String) : PyExc
  | firestoreUnavailable (userMsg : String) : PyExc
deriving DecidableEq, Repr

instance {e a : Type} [DecidableEq e] [DecidableEq a] : DecidableEq (Except e a) := fun x y =>
  match x, y with
  | Except.ok u, Except.ok v =>
      if h : u = v then isTrue (by rw [h]) else isFalse (fun hh => h (Except.ok.inj hh))
  | Except.error u, Except.error v =>
      if h : u = v then isTrue (by rw [h]) else isFalse (fun hh => h (Except.error.inj hh))
  | Except.ok _, Except.error _ => isFalse (fun hh => Except.noConfusion hh)
  | Except.error _, Except.ok _ => isFalse (fun hh => Except.noConfusion hh)

/-- `_parse_seq` (src/firestore_loader.py lines 78-85):
`int(str(exp_id).split("_")[-1])`, raising `FirestoreUnavailable` when the
conversion fails. -/
def parseSeq (expId : PyVal) : Except PyExc Int :=
  match pyIntOfChars (lastSegment (pyStr expId)) with
  | some n => Except.ok n
  | none => Except.error (PyExc.firestoreUnavailable ("Bad experiment id: " ++ pyStr expId))

/-- `pd.Timestamp(year=today.year, ..., microsecond=t.microsecond)`
(src/firestore_loader.py lines 109-112): the date of `today` with the time
of day of `t`. -/
def withTodayDate (today : Timestamp) (t : Timestamp) : Timestamp :=
  { year := today.year, month := today.month, day := today.day,
    hour := t.hour, minute := t.minute, second := t.second,
    microsecond := t.microsecond }

/-- `_combine_date_time` (src/firestore_loader.py lines 88-115): build a
timestamp from separate date and time fields when present.  `parseDt`
models `pd.to_datetime(·, errors="coerce")` on a string, `parseDtVal` the
same on a raw value; `none` covers both `None` and `NaT`. -/
def combineDateTime (parseDt : String → Option Timestamp)
    (parseDtVal : PyVal → Option Timestamp) (today : Timestamp)
    (dateVal timeVal : PyVal) : Option Timestamp :=
  if pdIsNa dateVal && pdIsNa timeVal then none
  else if !pdIsNa dateVal && !pdIsNa timeVal then
    parseDt (pyStr dateVal ++ " " ++ pyStr timeVal)
  else if !pdIsNa dateVal then parseDtVal dateVal
  else (parseDt (pyStr timeVal)).map (withTodayDate today)

/-- Store an optional timestamp into a row: missing becomes the NA value. -/
def optTsVal : Option Timestamp → PyVal
  | some t => PyVal.vTs t
  | none => PyVal.vNone

/-- Wrap an optional Python string. -/
def optStrVal : Option String → PyVal
  | none => PyVal.vNone
  | some s => PyVal.vStr s

/-- Fixed path configuration (src/firestore_loader.py lines 19-21). -/
def STATION_DOC : String := "watercapture@ASU"

/-- The initial `out` dict of `_row_from_reading` (src/firestore_loader.py
lines 123-130): the six preferred fields. -/
def baseRow (d : Dict) (stationHint : Option String) : Dict :=
  [("weight", dictGet d "weight"),
   ("date", dictGet d "date"),
   ("time", dictGet d "time"),
   ("experimental_runtime", dictGet d "experiment_runtime"),
   ("experimental_run_number", dictGet d "experiment_sequence"),
   ("station",
     pyOr (dictGet d "station") (pyOr (optStrVal stationHint) (PyVal.vStr STATION_DOC)))]

/-- The pass-through loop of `_row_from_reading` (src/firestore_loader.py
lines 132-134): `for k, v in d.items(): if k not in out: out[k] = v`. -/
def passThrough (acc : Dict) (d : Dict) : Dict :=
  d.foldl (fun acc kv => if dictHasKey acc kv.1 then acc else dictSet acc kv.1 kv.2) acc

/-- The condition `"timestamp" not in out or out.get("timestamp") in (None, "")`
of `_row_from_reading` (src/firestore_loader.py line 137). -/
def rowTimestampMissing (out : Dict) : Prop :=
  dictLookup out "timestamp" = none ∨ dictLookup out "timestamp" = some PyVal.vNone ∨
    dictLookup out "timestamp" = some (PyVal.vStr "")

instance (out : Dict) : Decidable (rowTimestampMissing out) := by
  unfold rowTimestampMissing; infer_instance

/-- The value assigned to `out["timestamp"]` by `_row_from_reading`
(src/firestore_loader.py lines 136-142): combined from `date`/`time` when
missing or empty, otherwise the `pd.to_datetime` coercion of the present
value. -/
def rowTimestampVal (parseDt : String → Option Timestamp)
    (parseDtVal : PyVal → Option Timestamp) (today : Timestamp) (out : Dict) : PyVal :=
  if rowTimestampMissing out then
    optTsVal (combineDateTime parseDt parseDtVal today
      (dictGet out "date") (dictGet out "time"))
  else optTsVal (parseDtVal (dictGet out "timestamp"))

/-- `_row_from_reading` (src/firestore_loader.py lines 118-144): normalize a
reading into a consistent row, keeping extras, and add a synthetic
`timestamp` column. -/
def rowFromReading (parseDt : String → Option Timestamp)
    (parseDtVal : PyVal → Option Timestamp) (today : Timestamp)
    (d : Dict) (stationHint : Option String) : Dict :=
  let out := passThrough (baseRow d stationHint) d
  dictSet out "timestamp" (rowTimestampVal parseDt parseDtVal today out)

/-- A pandas DataFrame: a column list plus the row dicts it was built from. -/
structure DataFrame where
  cols : List String
  rows : List Dict
deriving DecidableEq, Repr

/-- Accumulate the keys of one row into a column list, keeping first-seen
order and skipping the ones already present. -/
def addCols (cs : List String) (ks : List String) : List String :=
  ks.foldl (fun acc k => if k ∈ acc then acc else acc ++ [k]) cs

/-- Column list of `pd.DataFrame(rows)`: union of the row keys in
first-seen order. -/
def mkCols (rows : List Dict) : List String :=
  rows.foldl (fun cs r => addCols cs (dictKeys r)) []

/-- `pd.DataFrame(rows)` from a list of dicts. -/
def mkDataFrame (rows : List Dict) : DataFrame := ⟨mkCols rows, rows⟩

/-- The `prefer` list of `_order_columns` (src/firestore_loader.py
lines 148-154). -/
def preferColumns : List String :=
  ["timestamp", "weight", "date", "time", "experimental_runtime",
   "experimental_run_number", "station"]

/-- `_order_columns` (src/firestore_loader.py lines 147-157): preferred
columns that exist first, in the preferred order, then the rest. -/
def orderColumns (df : DataFrame) : DataFrame :=
  let existing := preferColumns.filter (fun c => decide (c ∈ df.cols))
  let rest := df.cols.filter (fun c => decide (c ∉ existing))
  ⟨existing ++ rest, df.rows⟩

/-- The value the `timestamp` cell sorts by: a real timestamp, or missing. -/
def tsOfRow (r : Dict) : Option Timestamp :=
  match dictLookup r "timestamp" with
  | some (PyVal.vTs t) => some t
  | _ => none

/-- Comparison used by `sort_values("timestamp", ascending=asc)` with the
pandas default `na_position="last"`: missing timestamps go last in both
directions. -/
def optTsLeB (asc : Bool) : Option Timestamp → Option Timestamp → Bool
  | some a, some b => if asc then decide (a.lexLe b) else decide (b.lexLe a)
  | some _, none => true
  | none, some _ => false
  | none, none => true

/-- Row comparison for `sort_values("timestamp", ascending=asc)`. -/
def rowLe (asc : Bool) (r1 r2 : Dict) : Prop :=
  optTsLeB asc (tsOfRow r1) (tsOfRow r2) = true

instance (asc : Bool) : DecidableRel (rowLe asc) := fun a b => by
  unfold rowLe; infer_instance

instance (asc : Bool) : IsTotal Dict (rowLe asc) where
  total a b := by
    unfold rowLe
    rcases tsOfRow a with _ | x <;> rcases tsOfRow b with _ | y
    · left; rfl
    · right; rfl
    · left; rfl
    · rcases asc with _ | _
      · have htot : y.lexLe x ∨ x.lexLe y := by unfold Timestamp.lexLe; omega
        rcases htot with h | h <;> simp [optTsLeB, h]
      · have htot : x.lexLe y ∨ y.lexLe x := by unfold Timestamp.lexLe; omega
        rcases htot with h | h <;> simp [optTsLeB, h]

instance (asc : Bool) : IsTrans Dict (rowLe asc) where
  trans a b c := by
    unfold rowLe
    rcases tsOfRow a with _ | x <;> rcases tsOfRow b with _ | y <;>
        rcases tsOfRow c with _ | z <;> intro h1 h2 <;> try rfl
    · exact absurd h2 (by simp [optTsLeB])
    · exact absurd h1 (by simp [optTsLeB])
    · exact absurd h2 (by simp [optTsLeB])
    · rcases asc with _ | _
      · have hzy : z.lexLe y := by simpa [optTsLeB] using h2
        have hyx : y.lexLe x := by simpa [optTsLeB] using h1
        have hzx : z.lexLe x := by
          unfold Timestamp.lexLe at hzy hyx ⊢
          omega
        simpa [optTsLeB] using hzx
      · have hxy : x.lexLe y := by simpa [optTsLeB] using h1
        have hyz : y.lexLe z := by simpa [optTsLeB] using h2
        have hxz : x.lexLe z := by
          unfold Timestamp.lexLe at hxy hyz ⊢
          omega
        simpa [optTsLeB] using hxz

/-- Client-side sort of the rows by the `timestamp` column
(src/firestore_loader.py line 303): an insertion sort modelling
`df.sort_values("timestamp", ascending=(order == "asc"))`. -/
def sortRows (asc : Bool) (rows : List Dict) : List Dict :=
  List.insertionSort (rowLe asc) rows

/-- The sorting step of `load_experiment_data` (src/firestore_loader.py
lines 302-305): sort by `timestamp` when that column exists, otherwise by
the (range) index. -/
def sortStep (order : String) (df : DataFrame) : DataFrame :=
  if "timestamp" ∈ df.cols then ⟨df.cols, sortRows (decide (order = "asc")) df.rows⟩
  else ⟨df.cols, if decide (order = "asc") = true then df.rows else df.rows.reverse⟩

/-- The limit step of `load_experiment_data` (src/firestore_loader.py
lines 308-309): `df.head(limit)` for ascending order, `df.tail(limit)`
otherwise, applied only to a positive int limit. -/
def applyLimit (order : String) (limit : Option Int) (rows : List Dict) : List Dict :=
  match limit with
  | none => rows
  | some l =>
      if 0 < l then
        if order = "asc" then rows.take l.toNat else rows.drop (rows.length - l.toNat)
      else rows

/-- The core columns always kept by the field projection of
`load_experiment_data` (src/firestore_loader.py lines 270-277). -/
def coreColumns : List String :=
  ["timestamp", "weight", "date", "time", "experimental_runtime",
   "experimental_run_number", "station"]

/-- Field projection (src/firestore_loader.py lines 270-277): keep the
requested fields plus the core columns, preserving insertion order. -/
def projectFields (fields : Option (List String)) (row : Dict) : Dict :=
  match fields with
  | none => row
  | some fs => row.filter (fun kv => decide (kv.1 ∈ fs) || decide (kv.1 ∈ coreColumns))

/-- `Timedelta` conversion of the `experimental_runtime` column
(src/firestore_loader.py lines 295-299): `toTdCol` models `pd.to_timedelta`
on the column; when it raises (`none`) the column is kept unchanged. -/
def convertRuntimeRows (toTdCol : List PyVal → Option (List PyVal))
    (rows : List Dict) : List Dict :=
  match toTdCol (rows.map (fun r => dictGet r "experimental_runtime")) with
  | none => rows
  | some vs =>
      if vs.length = rows.length then
        (rows.zip vs).map (fun rv => dictSet rv.1 "experimental_runtime" rv.2)
      else rows

/-- The runtime-conversion step, guarded on the column being present. -/
def convertRuntime (toTdCol : List PyVal → Option (List PyVal))
    (df : DataFrame) : DataFrame :=
  if "experimental_runtime" ∈ df.cols then ⟨df.cols, convertRuntimeRows toTdCol df.rows⟩
  else df

/-- The readings returned by the Firestore query
`.where("experiment_sequence", "==", seq)` (src/firestore_loader.py
line 255): equality of the stored field value with the int `seq`. -/
def selectedReadings (readings : List Dict) (seq : Int) : List Dict :=
  readings.filter (fun r => decide (dictGet r "experiment_sequence" = PyVal.vInt seq))

/-- The normalized, projected rows of the selected readings
(src/firestore_loader.py lines 264-279). -/
def normalizedRows (parseDt : String → Option Timestamp)
    (parseDtVal : PyVal → Option Timestamp) (today : Timestamp)
    (fields : Option (List String)) (readings : List Dict) (seq : Int) : List Dict :=
  (selectedReadings readings seq).map
    (fun d => projectFields fields (rowFromReading parseDt parseDtVal today d (some STATION_DOC)))

/-- The rows of the DataFrame just before the sorting step of
`load_experiment_data`. -/
def preSortRows (parseDt : String → Option Timestamp)
    (parseDtVal : PyVal → Option Timestamp)
    (toTdCol : List PyVal → Option (List PyVal)) (today : Timestamp)
    (fields : Option (List String)) (readings : List Dict) (seq : Int) : List Dict :=
  (convertRuntime toTdCol (mkDataFrame (normalizedRows parseDt parseDtVal today fields readings seq))).rows

/-- `load_experiment_data` (src/firestore_loader.py lines 217-311) on the
happy path of the datastore: parse the experiment id, select the readings
with that `experiment_sequence`, normalize, optionally project, convert the
runtime column, sort client-side, apply the row cap, and order columns. -/
def loadExperimentData (parseDt : String → Option Timestamp)
    (parseDtVal : PyVal → Option Timestamp)
    (toTdCol : List PyVal → Option (List PyVal)) (today : Timestamp)
    (readings : List Dict) (expId : PyVal) (fields : Option (List String))
    (order : String) (limit : Option Int) : Except PyExc DataFrame :=
  match parseSeq expId with
  | Except.error e => Except.error e
  | Except.ok seq =>
      let df := mkDataFrame (normalizedRows parseDt parseDtVal today fields readings seq)
      if df.rows.isEmpty then Except.ok df
      else
        let df := convertRuntime toTdCol df
        let df := sortStep order df
        let df : DataFrame := ⟨df.cols, applyLimit order limit df.rows⟩
        Except.ok (orderColumns df)

/-- One step of the `seq_counts` accumulation of `list_experiments`:
`seq_counts[seq] = seq_counts.get(seq, 0) + 1`. -/
def bumpCount : List (Int × Nat) → Int → List (Int × Nat)
  | [], s => [(s, 1)]
  | (k, n) :: rest, s =>
      if k = s then (k, n + 1) :: rest else (k, n) :: bumpCount rest s

/-- `_safe_int(rec.get("experiment_sequence"))` (src/firestore_loader.py
line 193): the coerced sequence of a reading. -/
def expSeqOf (r : Dict) : Option Int := safeInt (dictGet r "experiment_sequence")

/-- The body of the counting loop of `list_experiments`
(src/firestore_loader.py lines 193-196): skip a reading without a
coercible sequence, bump the count otherwise. -/
def countStep (m : List (Int × Nat)) (r : Dict) : List (Int × Nat) :=
  match expSeqOf r with
  | none => m
  | some s => bumpCount m s

/-- `seq_counts` of `list_experiments` (src/firestore_loader.py
lines 190-196): occurrences per coercible `experiment_sequence`, readings
without one silently skipped. -/
def seqCounts (readings : List Dict) : List (Int × Nat) :=
  readings.foldl countStep []

/-- `seq_counts[seq]` (defaulting to 0, never hit on present keys). -/
def countLookup : List (Int × Nat) → Int → Nat
  | [], _ => 0
  | (k, n) :: rest, s => if k = s then n else countLookup rest s

/-- The number of readings carrying a given coerced sequence value. -/
def countMatching (readings : List Dict) (s : Int) : Nat :=
  (readings.filter (fun r => decide (expSeqOf r = some s))).length

/-- An entry of the `list_experiments` result:
`{id: "exp_<seq>", sequence: seq, count: n}`. -/
structure ExpEntry where
  id : String
  sequence : Int
  count : Nat
deriving DecidableEq, Repr

/-- Python `items[:n]`, including the negative-index behaviour. -/
def pySlice (items : List ExpEntry) (n : Int) : List ExpEntry :=
  if 0 ≤ n then items.take n.toNat else items.take (items.length - n.natAbs)

/-- The untruncated `items` of `list_experiments` (src/firestore_loader.py
lines 208-211): `sorted(seq_counts.keys())`, each with its id string and
count. -/
def fullItems (readings : List Dict) : List ExpEntry :=
  (List.insertionSort (· ≤ ·) ((seqCounts readings).map Prod.fst)).map
    (fun s => ⟨"exp_" ++ String.mk (intChars s), s, countLookup (seqCounts readings) s⟩)

/-- `list_experiments` (src/firestore_loader.py lines 166-214) on the happy
path of the datastore: one entry per distinct coercible
`experiment_sequence`, ascending, truncated by `items[:limit]` only when
`limit` is truthy and exceeded. -/
def listExperiments (readings : List Dict) (limit : Int) : List ExpEntry :=
  if limit ≠ 0 ∧ ((fullItems readings).length : Int) > limit then
    pySlice (fullItems readings) limit
  else fullItems readings

/-- `load_latest_experiment` (src/firestore_loader.py lines 315-328): pick
the last entry of `list_experiments()` — which uses the default
`limit = 200` — and load it; empty DataFrame when there are no entries. -/
def loadLatestExperiment (parseDt : String → Option Timestamp)
    (parseDtVal : PyVal → Option Timestamp)
    (toTdCol : List PyVal → Option (List PyVal)) (today : Timestamp)
    (readings : List Dict) (fields : Option (List String)) (order : String)
    (limit : Option Int) : Except PyExc DataFrame :=
  match (listExperiments readings 200).getLast? with
  | none => Except.ok (mkDataFrame [])
  | some e =>
      loadExperimentData parseDt parseDtVal toTdCol today readings (PyVal.vStr e.id)
        fields order limit

/-- `get_active_experiment` (src/firestore_loader.py lines 161-163): no
live-run detection, always `None`. -/
def getActiveExperiment : Option Dict := none

/-- The parameter list of `def get_active_experiment()` in
src/firestore_loader.py: it takes no arguments. -/
def getActiveExperimentParams : List String := []

/-- Python call semantics for `get_active_experiment(**kwargs)`: a keyword
argument not named by the signature raises `TypeError` before the body
runs. -/
def callGetActiveExperiment (kwargs : List String) : Except PyExc (Option Dict) :=
  match kwargs.find? (fun k => decide (k ∉ getActiveExperimentParams)) with
  | some k =>
      Except.error
        (PyExc.typeError ("get_active_experiment() got an unexpected keyword argument " ++ k))
  | none => Except.ok getActiveExperiment

/-- Outcome of a guarded dashboard step: rendering halted with a displayed
message (`st.error` + `st.stop`), rendering proceeding with a value, or an
exception escaping the handler. -/
inductive RenderOutcome where
  | halted (msg : String) : RenderOutcome
  | proceeded (live : Option Dict) : RenderOutcome
  | uncaught (e : PyExc) : RenderOutcome
deriving DecidableEq, Repr

/-- The live-detector step of the dashboard (src/dashboard.py lines 19-23):
`get_active_experiment(live_window_s=300)` guarded by
`except FirestoreUnavailable`. -/
def dashboardLiveDetect : RenderOutcome :=
  match callGetActiveExperiment ["live_window_s"] with
  | Except.ok v => RenderOutcome.proceeded v
  | Except.error (PyExc.firestoreUnavailable m) => RenderOutcome.halted m
  | Except.error e => RenderOutcome.uncaught e

/-- `prefer_cols` of the CSV download block (src/dashboard.py
lines 218-223). -/
def preferCols : List String :=
  ["weight", "date", "time", "experimental_runtime", "experimental_run_number", "station"]

/-- Minimal CSV quoting as `to_csv` performs it: quote a cell containing a
comma, a quote or a line break, doubling inner quotes. -/
def csvEscape (s : String) : String :=
  if s.data.any (fun c => decide (c = ',') || decide (c = '"') || decide (c = '\n') || decide (c = '\r')) then
    "\"" ++ String.mk (s.data.foldr (fun c acc => if c = '"' then '"' :: '"' :: acc else c :: acc) []) ++ "\""
  else s

/-- Rendering of one cell value in `to_csv` (missing values print empty). -/
def csvCellVal : PyVal → String
  | PyVal.vNone => ""
  | PyVal.vInt n => String.mk (intChars n)
  | PyVal.vStr s => s
  | PyVal.vTs t => tsStr t
  | PyVal.vTd m => tdStr m

/-- One CSV cell of a row under a column. -/
def csvCell (r : Dict) (c : String) : String :=
  match dictLookup r c with
  | none => ""
  | some v => csvEscape (csvCellVal v)

/-- Comma-join of the cells of one line. -/
def csvLine (cells : List String) : String := String.intercalate "," cells

/-- Newline-terminated concatenation of lines, as `to_csv` emits them. -/
def joinLines : List String → String
  | [] => ""
  | l :: ls => l ++ "\n" ++ joinLines ls

/-- `df.to_csv(index=False)`: a header row of the column names followed by
one line per row, all comma-separated. -/
def dfToCsv (cols : List String) (rows : List Dict) : String :=
  joinLines (csvLine (cols.map csvEscape) :: rows.map (fun r => csvLine (cols.map (csvCell r))))

/-- The `ordered` column list of the CSV download block (src/dashboard.py
lines 225-226): present preferred columns first, then the rest. -/
def dashboardOrderedCols (df : DataFrame) : List String :=
  preferCols.filter (fun c => decide (c ∈ df.cols)) ++
    df.cols.filter (fun c => decide (c ∉ preferCols))

/-- The CSV text of the download block (src/dashboard.py lines 227-232):
`df_out[ordered].to_csv(index=False)`. -/
def dashboardCsv (df : DataFrame) : String :=
  dfToCsv (dashboardOrderedCols df) df.rows

/-- The downloaded bytes: `.encode("utf-8")` of the CSV text. -/
def dashboardCsvBytes (df : DataFrame) : ByteArray :=
  (dashboardCsv df).toUTF8

/-! ### Concrete instantiations of the external pandas parsers, used to
evaluate the model at concrete inputs -/

/-- A degenerate `pd.to_datetime` on strings that parses nothing. -/
def trivialDtStr : String → Option Timestamp := fun _ => none

/-- A degenerate `pd.to_datetime` on values that parses nothing. -/
def trivialDtVal : PyVal → Option Timestamp := fun _ => none

/-- A degenerate `pd.to_timedelta` that raises on every column. -/
def trivialTdCol : List PyVal → Option (List PyVal) := fun _ => none

/-- A fixed value for `pd.Timestamp.today().normalize()`. -/
def someToday : Timestamp := ⟨2025, 10, 12, 0, 0, 0, 0⟩

/-- A concrete `pd.to_datetime(·, errors="coerce")` on values that behaves
as pandas does on a value that already is a `Timestamp` — it returns it
unchanged — and coerces everything else to `NaT`. -/
def tsIdDtVal : PyVal → Option Timestamp
  | PyVal.vTs t => some t
  | _ => none

/-- A raw reading carrying only a real raw `timestamp` value: no `date`
and no `time` field. -/
def tsOnlyReading : Dict := [("timestamp", PyVal.vTs someToday)]

/-- A sample raw reading with a weight, an extra field and a raw timestamp. -/
def sampleReading : Dict :=
  [("weight", PyVal.vInt 5), ("foo", PyVal.vStr "x"), ("timestamp", PyVal.vStr "t")]

/-- A datastore with 201 readings carrying the sequences 1..201: more
distinct experiments than the default `limit = 200` of `list_experiments`. -/
def readings201 : List Dict :=
  (List.range 201).map (fun i => [("experiment_sequence", PyVal.vInt ((i : Int) + 1))])

/-- Two readings of experiment 3, one with an extra pass-through field. -/
def wReadings : List Dict :=
  [[("experiment_sequence", PyVal.vInt 3), ("weight", PyVal.vInt 9), ("extra", PyVal.vStr "e")],
   [("experiment_sequence", PyVal.vInt 3), ("weight", PyVal.vInt 8)]]

/-- The DataFrame loaded for `exp_3` from `wReadings` without a row cap. -/
def wDfA : DataFrame :=
  (loadExperimentData trivialDtStr trivialDtVal trivialTdCol someToday wReadings
    (PyVal.vStr "exp_3") none "asc" none).toOption.getD (mkDataFrame [])

/-- The DataFrame loaded for `exp_3` from `wReadings` with `limit = 1`. -/
def wDfB : DataFrame :=
  (loadExperimentData trivialDtStr trivialDtVal trivialTdCol someToday wReadings
    (PyVal.vStr "exp_3") none "asc" (some 1)).toOption.getD (mkDataFrame [])

/-! ### Dictionary lemmas -/

theorem dictLookup_dictSet_self (d : Dict) (k : String) (v : PyVal) :
    dictLookup (dictSet d k v) k = some v := by
  induction d with
  | nil => simp [dictSet, dictLookup]
  | cons kv rest ih =>
      rcases kv with ⟨k1, v1⟩
      by_cases h : k1 = k
      · subst h; simp [dictSet, dictLookup]
      · simp [dictSet, dictLookup, h, ih]

theorem dictLookup_dictSet_ne (d : Dict) (k k2 : String) (v : PyVal) (h : k2 ≠ k) :
    dictLookup (dictSet d k v) k2 = dictLookup d k2 := by
  have h2 : ¬(k = k2) := fun hh => h hh.symm
  induction d with
  | nil => simp [dictSet, dictLookup, h2]
  | cons kv rest ih =>
      rcases kv with ⟨k1, v1⟩
      by_cases h1 : k1 = k
      · subst h1
        simp [dictSet, dictLookup, h2]
      · simp [dictSet, dictLookup, h1, ih]

theorem dictLookup_none_of_hasKey_false (d : Dict) (k : String)
    (h : dictHasKey d k = false) : dictLookup d k = none := by
  unfold dictHasKey at h
  rcases hl : dictLookup d k with _ | v
  · rfl
  · rw [hl] at h; simp at h

theorem dictHasKey_dictSet (d : Dict) (k k2 : String) (v : PyVal) :
    dictHasKey (dictSet d k v) k2 = (dictHasKey d k2 || decide (k2 = k)) := by
  by_cases h : k2 = k
  · subst h
    unfold dictHasKey
    simp [dictLookup_dictSet_self]
  · unfold dictHasKey
    simp [dictLookup_dictSet_ne d k k2 v h, h]

theorem dictLookup_passThrough (d : Dict) : ∀ (acc : Dict) (k : String),
    dictLookup (passThrough acc d) k =
      if dictHasKey acc k then dictLookup acc k else dictLookup d k := by
  induction d with
  | nil =>
      intro acc k
      by_cases h : dictHasKey acc k
      · simp [passThrough, h]
      · simp only [Bool.not_eq_true] at h
        simp [passThrough, h, dictLookup, dictLookup_none_of_hasKey_false acc k h]
  | cons kv rest ih =>
      intro acc k
      rcases kv with ⟨k1, v1⟩
      have hstep : passThrough acc ((k1, v1) :: rest) =
          passThrough (if dictHasKey acc k1 then acc else dictSet acc k1 v1) rest := rfl
      rw [hstep]
      by_cases h1 : dictHasKey acc k1
      · rw [if_pos h1, ih]
        by_cases hk : dictHasKey acc k
        · simp [hk]
        · simp only [Bool.not_eq_true] at hk
          have hne : k1 ≠ k := by
            intro hh; rw [hh] at h1; rw [hk] at h1; exact Bool.noConfusion h1
          simp [hk, dictLookup, hne]
      · rw [if_neg h1, ih]
        simp only [Bool.not_eq_true] at h1
        by_cases hk : k = k1
        · subst hk
          have : dictHasKey (dictSet acc k v1) k = true := by
            unfold dictHasKey; simp [dictLookup_dictSet_self]
          simp [this, dictLookup_dictSet_self, h1, dictLookup]
        · have hset : dictLookup (dictSet acc k1 v1) k = dictLookup acc k :=
            dictLookup_dictSet_ne acc k1 k v1 hk
          have hhk : dictHasKey (dictSet acc k1 v1) k = dictHasKey acc k := by
            unfold dictHasKey; rw [hset]
          rw [hhk, hset]
          by_cases hacc : dictHasKey acc k
          · simp [hacc]
          · have hne : k1 ≠ k := fun hh => hk hh.symm
            simp [hacc, dictLookup, hne]

theorem dictHasKey_passThrough (d acc : Dict) (k : String) :
    dictHasKey (passThrough acc d) k = (dictHasKey acc k || dictHasKey d k) := by
  unfold dictHasKey
  rw [dictLookup_passThrough]
  by_cases h : dictHasKey acc k
  · simp only [h, if_pos]
    unfold dictHasKey at h
    simp [h]
  · simp only [Bool.not_eq_true] at h
    rw [if_neg (by simp [h])]
    unfold dictHasKey at h
    simp [h]

/-! ### Lemmas about the base row of `_row_from_reading` -/

theorem dictLookup_baseRow_not_mem (d : Dict) (hint : Option String) (k : String)
    (h : k ∉ preferCols) : dictLookup (baseRow d hint) k = none := by
  simp only [preferCols, List.mem_cons, List.not_mem_nil, or_false, not_or] at h
  obtain ⟨h1, h2, h3, h4, h5, h6⟩ := h
  have g1 : ¬("weight" = k) := fun hh => h1 hh.symm
  have g2 : ¬("date" = k) := fun hh => h2 hh.symm
  have g3 : ¬("time" = k) := fun hh => h3 hh.symm
  have g4 : ¬("experimental_runtime" = k) := fun hh => h4 hh.symm
  have g5 : ¬("experimental_run_number" = k) := fun hh => h5 hh.symm
  have g6 : ¬("station" = k) := fun hh => h6 hh.symm
  simp [baseRow, dictLookup, g1, g2, g3, g4, g5, g6]

theorem dictLookup_baseRow_timestamp (d : Dict) (hint : Option String) :
    dictLookup (baseRow d hint) "timestamp" = none := by
  simp [baseRow, dictLookup]

theorem dictLookup_rowOut_timestamp (d : Dict) (hint : Option String) :
    dictLookup (passThrough (baseRow d hint) d) "timestamp" = dictLookup d "timestamp" := by
  rw [dictLookup_passThrough]
  rw [if_neg (by unfold dictHasKey; simp [dictLookup_baseRow_timestamp])]

theorem dictLookup_rowOut_date (d : Dict) (hint : Option String) :
    dictLookup (passThrough (baseRow d hint) d) "date" = some (dictGet d "date") := by
  rw [dictLookup_passThrough]
  have hb : dictLookup (baseRow d hint) "date" = some (dictGet d "date") := by
    simp [baseRow, dictLookup]
  rw [if_pos (by unfold dictHasKey; simp [hb])]
  exact hb

theorem dictLookup_rowOut_time (d : Dict) (hint : Option String) :
    dictLookup (passThrough (baseRow d hint) d) "time" = some (dictGet d "time") := by
  rw [dictLookup_passThrough]
  have hb : dictLookup (baseRow d hint) "time" = some (dictGet d "time") := by
    simp [baseRow, dictLookup]
  rw [if_pos (by unfold dictHasKey; simp [hb])]
  exact hb

/-! ### Case analysis of `_combine_date_time` -/

theorem combineDateTime_both (parseDt : String → Option Timestamp)
    (parseDtVal : PyVal → Option Timestamp) (today : Timestamp) {dv tv : PyVal}
    (hd : pdIsNa dv = false) (ht : pdIsNa tv = false) :
    combineDateTime parseDt parseDtVal today dv tv =
      parseDt (pyStr dv ++ " " ++ pyStr tv) := by
  simp [combineDateTime, hd, ht]

theorem combineDateTime_date_only (parseDt : String → Option Timestamp)
    (parseDtVal : PyVal → Option Timestamp) (today : Timestamp) {dv tv : PyVal}
    (hd : pdIsNa dv = false) (ht : pdIsNa tv = true) :
    combineDateTime parseDt parseDtVal today dv tv = parseDtVal dv := by
  simp [combineDateTime, hd, ht]

theorem combineDateTime_time_only (parseDt : String → Option Timestamp)
    (parseDtVal : PyVal → Option Timestamp) (today : Timestamp) {dv tv : PyVal}
    (hd : pdIsNa dv = true) (ht : pdIsNa tv = false) :
    combineDateTime parseDt parseDtVal today dv tv =
      (parseDt (pyStr tv)).map (withTodayDate today) := by
  simp [combineDateTime, hd, ht]

theorem combineDateTime_neither (parseDt : String → Option Timestamp)
    (parseDtVal : PyVal → Option Timestamp) (today : Timestamp) {dv tv : PyVal}
    (hd : pdIsNa dv = true) (ht : pdIsNa tv = true) :
    combineDateTime parseDt parseDtVal today dv tv = none := by
  simp [combineDateTime, hd, ht]

/-! ### Claim C1 -/

/-- C1: the dashboard render is claimed to only ever see
`FirestoreUnavailable` from `get_active_experiment` and to catch it.  In
the code, `dashboard.py` line 20 calls `get_active_experiment` with the
keyword argument `live_window_s`, which the function signature
(src/firestore_loader.py line 161) does not accept, so every page load
raises a `TypeError` that the `except FirestoreUnavailable` handler does
not catch: a non-`FirestoreUnavailable` exception escapes to the
presentation framework. -/
theorem claim_C1_live_detect_uncaught_type_error :
    dashboardLiveDetect =
      RenderOutcome.uncaught (PyExc.typeError
        ("get_active_experiment() got an unexpected keyword argument " ++ "live_window_s")) ∧
    ∀ msg, dashboardLiveDetect ≠
      RenderOutcome.uncaught (PyExc.firestoreUnavailable msg) := by
  constructor
  · rfl
  · intro msg h
    exact PyExc.noConfusion (RenderOutcome.uncaught.inj h)

/-! ### Claim C2 -/

/-- C2 counterexample: the key `timestamp` is not one of the six preferred
output keys, yet `_row_from_reading` does not pass its value through
unchanged — a present raw `timestamp` is replaced by its `pd.to_datetime`
coercion. -/
theorem claim_C2_counterexample :
    "timestamp" ∉ preferCols ∧
    dictHasKey [("timestamp", PyVal.vStr "2025-01-01")] "timestamp" = true ∧
    dictLookup (rowFromReading trivialDtStr trivialDtVal someToday
        [("timestamp", PyVal.vStr "2025-01-01")] (some STATION_DOC)) "timestamp" ≠
      dictLookup [("timestamp", PyVal.vStr "2025-01-01")] "timestamp" := by
  decide

/-- C2 (amended): the row produced by `_row_from_reading` contains all
preferred keys; a `weight` key of `d` is carried over under `weight`
unchanged; every key of `d` that is neither one of the six preferred
output keys nor `timestamp` is passed through with its value unchanged;
and a present, non-`None`, nonempty raw `timestamp` value is replaced by
its `pd.to_datetime` coercion. -/
theorem claim_C2_amended (parseDt : String → Option Timestamp)
    (parseDtVal : PyVal → Option Timestamp) (today : Timestamp)
    (d : Dict) (hint : Option String) :
    (∀ c ∈ preferColumns,
        dictHasKey (rowFromReading parseDt parseDtVal today d hint) c = true)
  ∧ (dictHasKey d "weight" = true →
        dictLookup (rowFromReading parseDt parseDtVal today d hint) "weight" =
          dictLookup d "weight")
  ∧ (∀ k, k ∉ preferCols → k ≠ "timestamp" →
        dictLookup (rowFromReading parseDt parseDtVal today d hint) k = dictLookup d k)
  ∧ (∀ tv, dictLookup d "timestamp" = some tv → tv ≠ PyVal.vNone → tv ≠ PyVal.vStr "" →
        dictLookup (rowFromReading parseDt parseDtVal today d hint) "timestamp" =
          some (optTsVal (parseDtVal tv))) := by
  have hrow : rowFromReading parseDt parseDtVal today d hint =
      dictSet (passThrough (baseRow d hint) d) "timestamp"
        (rowTimestampVal parseDt parseDtVal today (passThrough (baseRow d hint) d)) := rfl
  refine ⟨?_, ?_, ?_, ?_⟩
  · intro c hc
    rw [hrow]
    simp only [preferColumns, List.mem_cons, List.not_mem_nil, or_false] at hc
    rcases hc with rfl | rfl | rfl | rfl | rfl | rfl | rfl <;>
      rw [dictHasKey_dictSet, dictHasKey_passThrough] <;>
      simp [dictHasKey, baseRow, dictLookup]
  · intro hw
    rw [hrow,
      dictLookup_dictSet_ne _ _ _ _ (by decide : ("weight" : String) ≠ "timestamp"),
      dictLookup_passThrough]
    have hbw : dictLookup (baseRow d hint) "weight" = some (dictGet d "weight") := by
      simp [baseRow, dictLookup]
    rw [if_pos (by unfold dictHasKey; simp [hbw]), hbw]
    unfold dictHasKey at hw
    rcases hlw : dictLookup d "weight" with _ | v
    · rw [hlw] at hw; simp at hw
    · simp [dictGet, hlw]
  · intro k hk hk2
    rw [hrow, dictLookup_dictSet_ne _ _ _ _ hk2, dictLookup_passThrough]
    have hb : dictLookup (baseRow d hint) k = none := dictLookup_baseRow_not_mem d hint k hk
    rw [if_neg (by unfold dictHasKey; simp [hb])]
  · intro tv htv h1 h2
    rw [hrow, dictLookup_dictSet_self]
    have hot : dictLookup (passThrough (baseRow d hint) d) "timestamp" = some tv := by
      rw [dictLookup_rowOut_timestamp]; exact htv
    unfold rowTimestampVal
    rw [if_neg (by unfold rowTimestampMissing; rw [hot]; simp [h1, h2])]
    simp [dictGet, hot]

/-- Witness for C2 (amended) at the sample reading. -/
theorem claim_C2_amended_witness :
    (dictHasKey sampleReading "weight" = true ∧
      dictLookup (rowFromReading trivialDtStr trivialDtVal someToday sampleReading
          (some STATION_DOC)) "weight" = dictLookup sampleReading "weight")
  ∧ ("foo" ∉ preferCols ∧ "foo" ≠ "timestamp" ∧
      dictLookup (rowFromReading trivialDtStr trivialDtVal someToday sampleReading
          (some STATION_DOC)) "foo" = dictLookup sampleReading "foo")
  ∧ (dictLookup sampleReading "timestamp" = some (PyVal.vStr "t") ∧
      dictLookup (rowFromReading trivialDtStr trivialDtVal someToday sampleReading
          (some STATION_DOC)) "timestamp" =
        some (optTsVal (trivialDtVal (PyVal.vStr "t")))) :=
  ⟨⟨by decide,
    (claim_C2_amended trivialDtStr trivialDtVal someToday sampleReading
      (some STATION_DOC)).2.1 (by decide)⟩,
   ⟨by decide, by decide,
    (claim_C2_amended trivialDtStr trivialDtVal someToday sampleReading
      (some STATION_DOC)).2.2.1 "foo" (by decide) (by decide)⟩,
   ⟨by decide,
    (claim_C2_amended trivialDtStr trivialDtVal someToday sampleReading
      (some STATION_DOC)).2.2.2 (PyVal.vStr "t") (by decide) (by decide) (by decide)⟩⟩

/-! ### Claim C4 -/

/-- C4 counterexample: the claim quantifies over every raw reading, but
`_row_from_reading` (src/firestore_loader.py lines 136-142) runs the
date/time inference only when the raw `timestamp` is absent, `None` or
empty.  For the concrete reading carrying only a real raw `timestamp`
(and neither `date` nor `time`), the claim demands a missing timestamp,
while the code keeps the `pd.to_datetime` coercion of the raw value — a
real timestamp. -/
theorem claim_C4_counterexample :
    pdIsNa (dictGet tsOnlyReading "date") = true
  ∧ pdIsNa (dictGet tsOnlyReading "time") = true
  ∧ dictLookup (rowFromReading trivialDtStr tsIdDtVal someToday tsOnlyReading
        (some STATION_DOC)) "timestamp" = some (PyVal.vTs someToday)
  ∧ dictLookup (rowFromReading trivialDtStr tsIdDtVal someToday tsOnlyReading
        (some STATION_DOC)) "timestamp" ≠
      some (optTsVal (combineDateTime trivialDtStr tsIdDtVal someToday
        (dictGet tsOnlyReading "date") (dictGet tsOnlyReading "time"))) := by
  decide

/-- C4 (amended): when the raw reading's own `timestamp` is absent, `None`
or empty, the normalized row's `timestamp` is inferred from the
heterogeneous `date` and `time` fields exactly as claimed — parse of the
combined string when both are present, parse of the date alone, today's
date with the given time of day, and missing (rather than an error) when
neither is present, with any parse failure also yielding a missing value;
a reading with any other present raw `timestamp` value instead receives
the `pd.to_datetime(·, errors="coerce")` coercion of that raw value. -/
theorem claim_C4_timestamp_inference (parseDt : String → Option Timestamp)
    (parseDtVal : PyVal → Option Timestamp) (today : Timestamp)
    (d : Dict) (hint : Option String) :
    ((dictLookup d "timestamp" = none ∨ dictLookup d "timestamp" = some PyVal.vNone ∨
        dictLookup d "timestamp" = some (PyVal.vStr "")) →
      dictLookup (rowFromReading parseDt parseDtVal today d hint) "timestamp" =
        some (optTsVal (combineDateTime parseDt parseDtVal today
          (dictGet d "date") (dictGet d "time"))))
  ∧ (pdIsNa (dictGet d "date") = false → pdIsNa (dictGet d "time") = false →
      combineDateTime parseDt parseDtVal today (dictGet d "date") (dictGet d "time") =
        parseDt (pyStr (dictGet d "date") ++ " " ++ pyStr (dictGet d "time")))
  ∧ (pdIsNa (dictGet d "date") = false → pdIsNa (dictGet d "time") = true →
      combineDateTime parseDt parseDtVal today (dictGet d "date") (dictGet d "time") =
        parseDtVal (dictGet d "date"))
  ∧ (pdIsNa (dictGet d "date") = true → pdIsNa (dictGet d "time") = false →
      combineDateTime parseDt parseDtVal today (dictGet d "date") (dictGet d "time") =
        (parseDt (pyStr (dictGet d "time"))).map (withTodayDate today))
  ∧ (pdIsNa (dictGet d "date") = true → pdIsNa (dictGet d "time") = true →
      combineDateTime parseDt parseDtVal today (dictGet d "date") (dictGet d "time") =
        none)
  ∧ (∀ tv, dictLookup d "timestamp" = some tv → tv ≠ PyVal.vNone → tv ≠ PyVal.vStr "" →
      dictLookup (rowFromReading parseDt parseDtVal today d hint) "timestamp" =
        some (optTsVal (parseDtVal tv))) := by
  have hrow : rowFromReading parseDt parseDtVal today d hint =
      dictSet (passThrough (baseRow d hint) d) "timestamp"
        (rowTimestampVal parseDt parseDtVal today (passThrough (baseRow d hint) d)) := rfl
  refine ⟨?_, ?_, ?_, ?_, ?_, ?_⟩
  · intro h
    rw [hrow, dictLookup_dictSet_self]
    have hmiss : rowTimestampMissing (passThrough (baseRow d hint) d) := by
      unfold rowTimestampMissing
      rw [dictLookup_rowOut_timestamp]
      exact h
    unfold rowTimestampVal
    rw [if_pos hmiss]
    have hdate : dictGet (passThrough (baseRow d hint) d) "date" = dictGet d "date" := by
      simp [dictGet, dictLookup_rowOut_date]
    have htime : dictGet (passThrough (baseRow d hint) d) "time" = dictGet d "time" := by
      simp [dictGet, dictLookup_rowOut_time]
    rw [hdate, htime]
  · exact fun hd ht => combineDateTime_both parseDt parseDtVal today hd ht
  · exact fun hd ht => combineDateTime_date_only parseDt parseDtVal today hd ht
  · exact fun hd ht => combineDateTime_time_only parseDt parseDtVal today hd ht
  · exact fun hd ht => combineDateTime_neither parseDt parseDtVal today hd ht
  · intro tv htv h1 h2
    rw [hrow, dictLookup_dictSet_self]
    have hot : dictLookup (passThrough (baseRow d hint) d) "timestamp" = some tv := by
      rw [dictLookup_rowOut_timestamp]
      exact htv
    unfold rowTimestampVal
    rw [if_neg (by unfold rowTimestampMissing; rw [hot]; simp [h1, h2])]
    simp [dictGet, hot]

/-- Witness for C4 (amended) at a reading with only a `date` field and at
a reading with only a raw `timestamp`. -/
theorem claim_C4_timestamp_inference_witness :
    ((dictLookup [(("date" : String), PyVal.vStr "2025-09-24")] "timestamp" = none)
      ∧ dictLookup (rowFromReading trivialDtStr trivialDtVal someToday
            [(("date" : String), PyVal.vStr "2025-09-24")] (some STATION_DOC)) "timestamp" =
          some (optTsVal (combineDateTime trivialDtStr trivialDtVal someToday
            (dictGet [(("date" : String), PyVal.vStr "2025-09-24")] "date")
            (dictGet [(("date" : String), PyVal.vStr "2025-09-24")] "time")))
      ∧ combineDateTime trivialDtStr trivialDtVal someToday
            (dictGet [(("date" : String), PyVal.vStr "2025-09-24")] "date")
            (dictGet [(("date" : String), PyVal.vStr "2025-09-24")] "time") =
          trivialDtVal (dictGet [(("date" : String), PyVal.vStr "2025-09-24")] "date"))
  ∧ (dictLookup tsOnlyReading "timestamp" = some (PyVal.vTs someToday)
      ∧ dictLookup (rowFromReading trivialDtStr tsIdDtVal someToday tsOnlyReading
            (some STATION_DOC)) "timestamp" =
          some (optTsVal (tsIdDtVal (PyVal.vTs someToday)))) :=
  ⟨⟨by decide,
    (claim_C4_timestamp_inference trivialDtStr trivialDtVal someToday
      [(("date" : String), PyVal.vStr "2025-09-24")] (some STATION_DOC)).1
      (Or.inl (by decide)),
    (claim_C4_timestamp_inference trivialDtStr trivialDtVal someToday
      [(("date" : String), PyVal.vStr "2025-09-24")] (some STATION_DOC)).2.2.1
      (by decide) (by decide)⟩,
   ⟨by decide,
    (claim_C4_timestamp_inference trivialDtStr tsIdDtVal someToday tsOnlyReading
      (some STATION_DOC)).2.2.2.2.2 (PyVal.vTs someToday) (by decide) (by decide)
      (by decide)⟩⟩

/-! ### Lemmas about the sequence counting of `list_experiments` -/

theorem countLookup_bumpCount_self (m : List (Int × Nat)) (s : Int) :
    countLookup (bumpCount m s) s = countLookup m s + 1 := by
  induction m with
  | nil => simp [bumpCount, countLookup]
  | cons p rest ih =>
      rcases p with ⟨k, n⟩
      by_cases h : k = s
      · subst h; simp [bumpCount, countLookup]
      · simp [bumpCount, countLookup, h, ih]

theorem countLookup_bumpCount_ne (m : List (Int × Nat)) (s s2 : Int) (h : s2 ≠ s) :
    countLookup (bumpCount m s) s2 = countLookup m s2 := by
  have h2 : ¬(s = s2) := fun hh => h hh.symm
  induction m with
  | nil => simp [bumpCount, countLookup, h2]
  | cons p rest ih =>
      rcases p with ⟨k, n⟩
      by_cases h1 : k = s
      · subst h1; simp [bumpCount, countLookup, h2]
      · simp [bumpCount, countLookup, h1, ih]

theorem countLookup_foldl (rs : List Dict) : ∀ (m : List (Int × Nat)) (s : Int),
    countLookup (rs.foldl countStep m) s = countLookup m s + countMatching rs s := by
  induction rs with
  | nil => intro m s; simp [countMatching]
  | cons r rest ih =>
      intro m s
      have hstep : (r :: rest).foldl countStep m = rest.foldl countStep (countStep m r) := rfl
      rw [hstep, ih]
      rcases hseq : expSeqOf r with _ | t
      · have hcs : countStep m r = m := by simp [countStep, hseq]
        have hcm : countMatching (r :: rest) s = countMatching rest s := by
          unfold countMatching
          rw [List.filter_cons, if_neg (by rw [hseq]; simp)]
        rw [hcs, hcm]
      · by_cases ht : t = s
        · subst ht
          have hcs : countStep m r = bumpCount m t := by simp [countStep, hseq]
          have hcm : countMatching (r :: rest) t = countMatching rest t + 1 := by
            unfold countMatching
            rw [List.filter_cons, if_pos (by rw [hseq]; simp)]
            simp
          rw [hcs, countLookup_bumpCount_self, hcm]
          omega
        · have hcs : countStep m r = bumpCount m t := by simp [countStep, hseq]
          have hcm : countMatching (r :: rest) s = countMatching rest s := by
            unfold countMatching
            rw [List.filter_cons, if_neg (by rw [hseq]; simp [ht])]
          rw [hcs, countLookup_bumpCount_ne m t s (fun hh => ht hh.symm), hcm]

theorem countLookup_seqCounts (rs : List Dict) (s : Int) :
    countLookup (seqCounts rs) s = countMatching rs s := by
  unfold seqCounts
  rw [countLookup_foldl]
  simp [countLookup]

theorem keys_bumpCount (m : List (Int × Nat)) (s : Int) :
    (bumpCount m s).map Prod.fst =
      if s ∈ m.map Prod.fst then m.map Prod.fst else m.map Prod.fst ++ [s] := by
  induction m with
  | nil => simp [bumpCount]
  | cons p rest ih =>
      rcases p with ⟨k, n⟩
      by_cases h : k = s
      · subst h; simp [bumpCount]
      · have hne : ¬(s = k) := fun hh => h hh.symm
        by_cases hm : s ∈ rest.map Prod.fst
        · simp [bumpCount, h, ih, hm, hne]
        · simp [bumpCount, h, ih, hm, hne]

theorem nodup_keys_bumpCount (m : List (Int × Nat)) (s : Int)
    (h : (m.map Prod.fst).Nodup) : ((bumpCount m s).map Prod.fst).Nodup := by
  rw [keys_bumpCount]
  by_cases hm : s ∈ m.map Prod.fst
  · rw [if_pos hm]; exact h
  · rw [if_neg hm]
    rw [List.nodup_append]
    exact ⟨h, List.nodup_singleton s, by simpa using hm⟩

theorem pos_bumpCount (m : List (Int × Nat)) (s : Int)
    (h : ∀ q ∈ m, 1 ≤ q.2) : ∀ q ∈ bumpCount m s, 1 ≤ q.2 := by
  induction m with
  | nil =>
      intro q hq
      have : q = (s, 1) := by simpa [bumpCount] using hq
      rw [this]
  | cons p rest ih =>
      rcases p with ⟨k, n⟩
      intro q hq
      by_cases hk : k = s
      · rw [show bumpCount ((k, n) :: rest) s = (k, n + 1) :: rest by
            simp [bumpCount, hk]] at hq
        rcases List.mem_cons.mp hq with hq1 | hq2
        · rw [hq1]; exact Nat.succ_le_succ (Nat.zero_le n)
        · exact h q (List.mem_cons_of_mem _ hq2)
      · rw [show bumpCount ((k, n) :: rest) s = (k, n) :: bumpCount rest s by
            simp [bumpCount, hk]] at hq
        rcases List.mem_cons.mp hq with hq1 | hq2
        · rw [hq1]; exact h (k, n) (List.mem_cons_self _ _)
        · exact ih (fun q2 hq2b => h q2 (List.mem_cons_of_mem _ hq2b)) q hq2

theorem mem_keys_iff_countLookup (m : List (Int × Nat)) (s : Int)
    (h : ∀ q ∈ m, 1 ≤ q.2) : s ∈ m.map Prod.fst ↔ countLookup m s ≠ 0 := by
  induction m with
  | nil => simp [countLookup]
  | cons p rest ih =>
      rcases p with ⟨k, n⟩
      by_cases hk : k = s
      · subst hk
        have hn : 1 ≤ n := h (k, n) (List.mem_cons_self _ _)
        have hc : countLookup ((k, n) :: rest) k = n := by simp [countLookup]
        rw [hc]
        simp only [List.map_cons, List.mem_cons]
        constructor
        · intro _; omega
        · intro _; simp
      · have hne : ¬(s = k) := fun hh => hk hh.symm
        have hc : countLookup ((k, n) :: rest) s = countLookup rest s := by
          simp [countLookup, hk]
        rw [hc]
        simp only [List.map_cons, List.mem_cons]
        rw [ih (fun q hq => h q (List.mem_cons_of_mem _ hq))]
        simp [hne]

theorem seqCounts_invariant (rs : List Dict) :
    ((seqCounts rs).map Prod.fst).Nodup ∧ ∀ q ∈ seqCounts rs, 1 ≤ q.2 := by
  unfold seqCounts
  suffices h : ∀ (m : List (Int × Nat)), (m.map Prod.fst).Nodup → (∀ q ∈ m, 1 ≤ q.2) →
      ((rs.foldl countStep m).map Prod.fst).Nodup ∧ ∀ q ∈ rs.foldl countStep m, 1 ≤ q.2 by
    exact h [] (by simp) (by simp)
  induction rs with
  | nil => intro m h1 h2; exact ⟨h1, h2⟩
  | cons r rest ih =>
      intro m h1 h2
      have hstep : (r :: rest).foldl countStep m = rest.foldl countStep (countStep m r) := rfl
      rw [hstep]
      rcases hseq : expSeqOf r with _ | t
      · have : countStep m r = m := by simp [countStep, hseq]
        rw [this]; exact ih m h1 h2
      · have : countStep m r = bumpCount m t := by simp [countStep, hseq]
        rw [this]
        exact ih (bumpCount m t) (nodup_keys_bumpCount m t h1) (pos_bumpCount m t h2)

theorem mem_keys_seqCounts (rs : List Dict) (s : Int) :
    s ∈ (seqCounts rs).map Prod.fst ↔ countMatching rs s ≠ 0 := by
  rw [mem_keys_iff_countLookup _ _ (seqCounts_invariant rs).2, countLookup_seqCounts]

/-! ### Structure of `fullItems` -/

theorem fullItems_sorted (rs : List Dict) :
    List.Pairwise (fun a b : ExpEntry => a.sequence < b.sequence) (fullItems rs) := by
  unfold fullItems
  rw [List.pairwise_map]
  have hperm := List.perm_insertionSort (α := Int) (· ≤ ·) ((seqCounts rs).map Prod.fst)
  have hsorted := List.sorted_insertionSort (α := Int) (· ≤ ·) ((seqCounts rs).map Prod.fst)
  have hnodup : (List.insertionSort (· ≤ ·) ((seqCounts rs).map Prod.fst)).Nodup :=
    ((seqCounts_invariant rs).1).perm hperm.symm
  have hlt := (List.Pairwise.and hsorted hnodup).imp
    (fun {a b} h => lt_of_le_of_ne h.1 h.2)
  exact hlt.imp (fun {a b} h => h)

theorem mem_fullItems (rs : List Dict) (e : ExpEntry) (he : e ∈ fullItems rs) :
    e.count = countMatching rs e.sequence ∧ 0 < e.count ∧
      e.id = "exp_" ++ String.mk (intChars e.sequence) := by
  unfold fullItems at he
  rcases List.mem_map.mp he with ⟨s, hs, rfl⟩
  have hmem : s ∈ (seqCounts rs).map Prod.fst :=
    ((List.perm_insertionSort (· ≤ ·) _).mem_iff).mp hs
  have hcount := countLookup_seqCounts rs s
  have hne := (mem_keys_seqCounts rs s).mp hmem
  refine ⟨hcount, ?_, rfl⟩
  show 0 < countLookup (seqCounts rs) s
  rw [hcount]
  omega

theorem mem_fullItems_of_matching (rs : List Dict) (s : Int)
    (h : countMatching rs s ≠ 0) :
    (⟨"exp_" ++ String.mk (intChars s), s, countLookup (seqCounts rs) s⟩ : ExpEntry) ∈
      fullItems rs := by
  unfold fullItems
  apply List.mem_map_of_mem
  rw [(List.perm_insertionSort (· ≤ ·) _).mem_iff]
  exact (mem_keys_seqCounts rs s).mpr h

theorem listExperiments_sublist (rs : List Dict) (limit : Int) :
    List.Sublist (listExperiments rs limit) (fullItems rs) := by
  unfold listExperiments
  by_cases h : limit ≠ 0 ∧ ((fullItems rs).length : Int) > limit
  · rw [if_pos h]
    unfold pySlice
    by_cases hn : 0 ≤ limit
    · rw [if_pos hn]; exact List.take_sublist _ _
    · rw [if_neg hn]; exact List.take_sublist _ _
  · rw [if_neg h]

/-! ### Claim C3 -/

/-- C3 counterexample: with `limit = 0` (a falsy int), `list_experiments`
performs no truncation at all — `if limit and len(items) > limit` is
skipped — so more than `limit` entries are returned, contradicting the
claimed bound for every limit. -/
theorem claim_C3_counterexample :
    (listExperiments [[("experiment_sequence", PyVal.vInt 1)]] 0).length = 1 ∧
    ¬((listExperiments [[("experiment_sequence", PyVal.vInt 1)]] 0).length ≤ 0) := by
  decide

/-- C3 (amended): `list_experiments` returns entries with strictly
increasing sequence values, each entry counting exactly the readings whose
`experiment_sequence` coerces to its sequence; every distinct coerced
sequence value is represented whenever no truncation applies (`limit = 0`,
or at most `limit` distinct values); and the entry list is capped at
`limit` whenever `limit` is positive (for `limit = 0` no cap applies). -/
theorem claim_C3_amended (readings : List Dict) (limit : Int) :
    List.Pairwise (fun a b : ExpEntry => a.sequence < b.sequence)
      (listExperiments readings limit)
  ∧ (∀ e ∈ listExperiments readings limit,
      e.count = countMatching readings e.sequence ∧ 0 < e.count ∧
        e.id = "exp_" ++ String.mk (intChars e.sequence))
  ∧ (∀ s : Int, countMatching readings s ≠ 0 →
      (limit = 0 ∨ ((fullItems readings).length : Int) ≤ limit) →
      ∃ e ∈ listExperiments readings limit,
        e.sequence = s ∧ e.count = countMatching readings s)
  ∧ (0 < limit → ((listExperiments readings limit).length : Int) ≤ limit) := by
  have hsub := listExperiments_sublist readings limit
  refine ⟨(fullItems_sorted readings).sublist hsub, ?_, ?_, ?_⟩
  · intro e he
    exact mem_fullItems readings e (hsub.subset he)
  · intro s hs hlim
    have hfull : listExperiments readings limit = fullItems readings := by
      unfold listExperiments
      rcases hlim with rfl | hle
      · simp
      · rw [if_neg (by omega)]
    rw [hfull]
    refine ⟨_, mem_fullItems_of_matching readings s hs, rfl, ?_⟩
    exact countLookup_seqCounts readings s
  · intro hpos
    unfold listExperiments
    by_cases h : limit ≠ 0 ∧ ((fullItems readings).length : Int) > limit
    · rw [if_pos h]
      unfold pySlice
      rw [if_pos (le_of_lt hpos)]
      have := List.length_take limit.toNat (fullItems readings)
      omega
    · rw [if_neg h]
      omega

/-- Witness for C3 (amended) at a small collection of readings with
sequences 2, 1 and the coercible string spelling of 2. -/
theorem claim_C3_amended_witness :
    (countMatching [[("experiment_sequence", PyVal.vInt 2)],
        [("experiment_sequence", PyVal.vInt 1)],
        [("experiment_sequence", PyVal.vStr "2")]] 2 ≠ 0)
  ∧ ((0 : Int) = 0 ∨
      ((fullItems [[("experiment_sequence", PyVal.vInt 2)],
        [("experiment_sequence", PyVal.vInt 1)],
        [("experiment_sequence", PyVal.vStr "2")]]).length : Int) ≤ 200)
  ∧ (∃ e ∈ listExperiments [[("experiment_sequence", PyVal.vInt 2)],
        [("experiment_sequence", PyVal.vInt 1)],
        [("experiment_sequence", PyVal.vStr "2")]] 200,
      e.sequence = 2 ∧ e.count = countMatching [[("experiment_sequence", PyVal.vInt 2)],
        [("experiment_sequence", PyVal.vInt 1)],
        [("experiment_sequence", PyVal.vStr "2")]] 2)
  ∧ ((0 : Int) < 200 ∧
      ((listExperiments [[("experiment_sequence", PyVal.vInt 2)],
        [("experiment_sequence", PyVal.vInt 1)],
        [("experiment_sequence", PyVal.vStr "2")]] 200).length : Int) ≤ 200) :=
  ⟨by decide, by decide,
   (claim_C3_amended [[("experiment_sequence", PyVal.vInt 2)],
      [("experiment_sequence", PyVal.vInt 1)],
      [("experiment_sequence", PyVal.vStr "2")]] 200).2.2.1 2 (by decide)
     (Or.inr (by decide)),
   by decide,
   (claim_C3_amended [[("experiment_sequence", PyVal.vInt 2)],
      [("experiment_sequence", PyVal.vInt 1)],
      [("experiment_sequence", PyVal.vStr "2")]] 200).2.2.2 (by decide)⟩

/-! ### Claim C10 -/

/-- C10: a reading whose `experiment_sequence` is absent or not coercible
to an integer is silently skipped by `list_experiments`: inserting such a
reading anywhere leaves `seq_counts`, every per-sequence count and the
whole result unchanged (and the function still returns normally). -/
theorem claim_C10_noncoercible_skipped (l1 l2 : List Dict) (r : Dict) (limit : Int)
    (h : expSeqOf r = none) :
    seqCounts (l1 ++ r :: l2) = seqCounts (l1 ++ l2)
  ∧ (∀ s : Int, countMatching (l1 ++ r :: l2) s = countMatching (l1 ++ l2) s)
  ∧ listExperiments (l1 ++ r :: l2) limit = listExperiments (l1 ++ l2) limit := by
  have hsc : seqCounts (l1 ++ r :: l2) = seqCounts (l1 ++ l2) := by
    unfold seqCounts
    rw [List.foldl_append, List.foldl_append]
    have : countStep (l1.foldl countStep []) r = l1.foldl countStep [] := by
      simp [countStep, h]
    show (r :: l2).foldl countStep (l1.foldl countStep []) = _
    rw [List.foldl_cons, this]
  refine ⟨hsc, ?_, ?_⟩
  · intro s
    unfold countMatching
    rw [List.filter_append, List.filter_append, List.filter_cons]
    rw [if_neg (by rw [h]; simp)]
  · unfold listExperiments fullItems
    rw [hsc]

/-- Witness for C10 at a reading with a non-coercible string sequence. -/
theorem claim_C10_noncoercible_skipped_witness :
    expSeqOf [("experiment_sequence", PyVal.vStr "abc")] = none
  ∧ listExperiments [[("experiment_sequence", PyVal.vInt 1)],
      [("experiment_sequence", PyVal.vStr "abc")], [("other", PyVal.vInt 2)]] 200 =
    listExperiments [[("experiment_sequence", PyVal.vInt 1)],
      [("other", PyVal.vInt 2)]] 200 :=
  ⟨by decide,
   (claim_C10_noncoercible_skipped [[("experiment_sequence", PyVal.vInt 1)]]
      [[("other", PyVal.vInt 2)]] [("experiment_sequence", PyVal.vStr "abc")] 200
      (by decide)).2.2⟩

/-! ### Digit-string lemmas for the identifier round trip -/

theorem natDigitChar_isDigit (k : Nat) (h : k < 10) :
    (natDigitChar k).isDigit = true := by
  interval_cases k <;> decide

theorem natDigitChar_toNat (k : Nat) (h : k < 10) :
    (natDigitChar k).toNat = 48 + k := by
  interval_cases k <;> decide

theorem natDigitChar_not_ws (k : Nat) (h : k < 10) :
    (natDigitChar k).isWhitespace = false := by
  interval_cases k <;> decide

theorem natDigitChar_not_special (k : Nat) (h : k < 10) :
    natDigitChar k ≠ '_' ∧ natDigitChar k ≠ '-' ∧ natDigitChar k ≠ '+' := by
  interval_cases k <;> decide

theorem natCharsAux_mem (fuel : Nat) : ∀ (n : Nat), ∀ c ∈ natCharsAux fuel n,
    ∃ k, k < 10 ∧ c = natDigitChar k := by
  induction fuel with
  | zero => intro n c hc; simp [natCharsAux] at hc
  | succ fuel ih =>
      intro n c hc
      by_cases h : n < 10
      · rw [show natCharsAux (fuel + 1) n = [natDigitChar n] by
            simp [natCharsAux, h]] at hc
        rcases List.mem_singleton.mp hc with rfl
        exact ⟨n, h, rfl⟩
      · rw [show natCharsAux (fuel + 1) n =
            natCharsAux fuel (n / 10) ++ [natDigitChar (n % 10)] by
            simp [natCharsAux, h]] at hc
        rcases List.mem_append.mp hc with hc1 | hc2
        · exact ih (n / 10) c hc1
        · rcases List.mem_singleton.mp hc2 with rfl
          exact ⟨n % 10, Nat.mod_lt n (by omega), rfl⟩

theorem natCharsAux_ne_nil (fuel n : Nat) (h : 0 < fuel) :
    natCharsAux fuel n ≠ [] := by
  rcases fuel with _ | fuel
  · omega
  · by_cases hn : n < 10
    · simp [natCharsAux, hn]
    · simp [natCharsAux, hn]

theorem digitsVal_append_singleton (xs : List Char) (c : Char) :
    digitsVal (xs ++ [c]) = digitsVal xs * 10 + (c.toNat - 48) := by
  unfold digitsVal
  rw [List.foldl_append]
  rfl

theorem digitsVal_natCharsAux : ∀ (fuel n : Nat), n < fuel →
    digitsVal (natCharsAux fuel n) = n := by
  intro fuel
  induction fuel with
  | zero => intro n h; omega
  | succ fuel ih =>
      intro n h
      by_cases hn : n < 10
      · rw [show natCharsAux (fuel + 1) n = [natDigitChar n] by simp [natCharsAux, hn]]
        unfold digitsVal
        simp [natDigitChar_toNat n hn]
      · rw [show natCharsAux (fuel + 1) n =
            natCharsAux fuel (n / 10) ++ [natDigitChar (n % 10)] by
            simp [natCharsAux, hn]]
        rw [digitsVal_append_singleton]
        rw [ih (n / 10) (by omega)]
        rw [natDigitChar_toNat (n % 10) (Nat.mod_lt n (by omega))]
        omega

theorem digitsToNat_natChars (n : Nat) : digitsToNat (natChars n) = some n := by
  unfold digitsToNat
  have hne : natChars n ≠ [] := natCharsAux_ne_nil (n + 1) n (by omega)
  have hall : (natChars n).all Char.isDigit = true := by
    rw [List.all_eq_true]
    intro c hc
    rcases natCharsAux_mem (n + 1) n c hc with ⟨k, hk, rfl⟩
    exact natDigitChar_isDigit k hk
  rw [if_pos ?_]
  · rw [show natChars n = natCharsAux (n + 1) n from rfl,
      digitsVal_natCharsAux (n + 1) n (by omega)]
  · unfold allDigits
    rcases hc : natChars n with _ | ⟨c, cs⟩
    · exact absurd hc hne
    · rw [← hc, hall]
      rw [hc]
      simp

theorem stripChars_eq_self (cs : List Char)
    (h : ∀ c ∈ cs, c.isWhitespace = false) : stripChars cs = cs := by
  have h1 : cs.dropWhile Char.isWhitespace = cs := by
    rcases hc : cs with _ | ⟨c, rest⟩
    · rfl
    · rw [List.dropWhile_cons, if_neg (by simp [h c (by rw [hc]; exact List.mem_cons_self _ _)])]
  have h2 : cs.reverse.dropWhile Char.isWhitespace = cs.reverse := by
    rcases hc : cs.reverse with _ | ⟨c, rest⟩
    · rfl
    · have hmem : c ∈ cs := by
        rw [← List.mem_reverse, hc]; exact List.mem_cons_self _ _
      rw [List.dropWhile_cons, if_neg (by simp [h c hmem])]
  unfold stripChars
  rw [h1, h2, List.reverse_reverse]

theorem intChars_not_ws (n : Int) : ∀ c ∈ intChars n, c.isWhitespace = false := by
  intro c hc
  unfold intChars at hc
  by_cases h : n < 0
  · rw [if_pos h] at hc
    rcases List.mem_cons.mp hc with rfl | hc2
    · decide
    · rcases natCharsAux_mem _ _ c hc2 with ⟨k, hk, rfl⟩
      exact natDigitChar_not_ws k hk
  · rw [if_neg h] at hc
    rcases natCharsAux_mem _ _ c hc with ⟨k, hk, rfl⟩
    exact natDigitChar_not_ws k hk

theorem intChars_no_underscore (n : Int) : ∀ c ∈ intChars n, c ≠ '_' := by
  intro c hc
  unfold intChars at hc
  by_cases h : n < 0
  · rw [if_pos h] at hc
    rcases List.mem_cons.mp hc with rfl | hc2
    · decide
    · rcases natCharsAux_mem _ _ c hc2 with ⟨k, hk, rfl⟩
      exact (natDigitChar_not_special k hk).1
  · rw [if_neg h] at hc
    rcases natCharsAux_mem _ _ c hc with ⟨k, hk, rfl⟩
    exact (natDigitChar_not_special k hk).1

theorem pyIntOfChars_intChars (n : Int) : pyIntOfChars (intChars n) = some n := by
  unfold pyIntOfChars
  rw [stripChars_eq_self _ (intChars_not_ws n)]
  by_cases h : n < 0
  · rw [show intChars n = '-' :: natChars n.natAbs by simp [intChars, h]]
    show (if ('-' : Char) = '-' then
          (digitsToNat (natChars n.natAbs)).map (fun k => -(k : Int))
        else if ('-' : Char) = '+' then
          (digitsToNat (natChars n.natAbs)).map (fun k => (k : Int))
        else (digitsToNat ('-' :: natChars n.natAbs)).map (fun k => (k : Int))) = some n
    rw [if_pos rfl, digitsToNat_natChars]
    show some (-((n.natAbs : Nat) : Int)) = some n
    congr 1
    omega
  · rw [show intChars n = natChars n.toNat by simp [intChars, h]]
    have hne : natChars n.toNat ≠ [] := natCharsAux_ne_nil _ _ (by omega)
    rcases hc : natChars n.toNat with _ | ⟨c, rest⟩
    · exact absurd hc hne
    · have hdig : c.isDigit = true := by
        rcases natCharsAux_mem (n.toNat + 1) n.toNat c
            (by rw [show natCharsAux (n.toNat + 1) n.toNat = c :: rest from hc]
                exact List.mem_cons_self _ _) with ⟨k, hk, rfl⟩
        exact natDigitChar_isDigit k hk
      have hm : c ≠ '-' := by
        intro hh; rw [hh] at hdig; exact absurd hdig (by decide)
      have hp : c ≠ '+' := by
        intro hh; rw [hh] at hdig; exact absurd hdig (by decide)
      show (if c = '-' then (digitsToNat rest).map (fun k => -(k : Int))
          else if c = '+' then (digitsToNat rest).map (fun k => (k : Int))
          else (digitsToNat (c :: rest)).map (fun k => (k : Int))) = some n
      rw [if_neg hm, if_neg hp, ← hc, digitsToNat_natChars]
      show some ((n.toNat : Nat) : Int) = some n
      congr 1
      omega

/-! ### Lemmas about `split("_")` -/

theorem splitChar_ne_nil (sep : Char) (cs : List Char) : splitChar sep cs ≠ [] := by
  induction cs with
  | nil => simp [splitChar]
  | cons c rest ih =>
      by_cases h : c = sep
      · simp [splitChar, h]
      · rw [show splitChar sep (c :: rest) = splitConsHead c (splitChar sep rest) by
            simp [splitChar, h]]
        rcases splitChar sep rest with _ | ⟨g, gs⟩
        · simp [splitConsHead]
        · simp [splitConsHead]

theorem splitChar_no_sep (sep : Char) (cs : List Char) (h : ∀ c ∈ cs, c ≠ sep) :
    splitChar sep cs = [cs] := by
  induction cs with
  | nil => rfl
  | cons c rest ih =>
      have hc : c ≠ sep := h c (List.mem_cons_self _ _)
      rw [show splitChar sep (c :: rest) = splitConsHead c (splitChar sep rest) by
          simp [splitChar, hc]]
      rw [ih (fun c2 hc2 => h c2 (List.mem_cons_of_mem _ hc2))]
      rfl

theorem lastSegment_exp_append (t : String) :
    lastSegment ("exp_" ++ t) = lastSegment t := by
  unfold lastSegment
  rw [String.data_append]
  rw [show ("exp_" : String).data = ['e', 'x', 'p', '_'] from rfl]
  rcases hsp : splitChar '_' t.data with _ | ⟨g, gs⟩
  · exact absurd hsp (splitChar_ne_nil '_' t.data)
  · have hcomp : splitChar '_' (['e', 'x', 'p', '_'] ++ t.data) =
        ['e', 'x', 'p'] :: g :: gs := by
      show splitChar '_' ('e' :: 'x' :: 'p' :: '_' :: t.data) = _
      simp [splitChar, hsp, splitConsHead]
    rw [hcomp, List.getLastD_cons, List.getLastD_cons, List.getLastD_cons]

/-! ### The three spellings of an experiment id -/

theorem pyIntOfChars_lastSegment_intChars (n : Int) :
    pyIntOfChars (lastSegment (String.mk (intChars n))) = some n := by
  unfold lastSegment
  rw [show (String.mk (intChars n)).data = intChars n from rfl,
    splitChar_no_sep '_' _ (intChars_no_underscore n)]
  rw [show ([intChars n] : List (List Char)).getLastD [] = intChars n from rfl]
  exact pyIntOfChars_intChars n

theorem parseSeq_mk_intChars (n : Int) :
    parseSeq (PyVal.vStr (String.mk (intChars n))) = Except.ok n := by
  unfold parseSeq
  rw [show pyStr (PyVal.vStr (String.mk (intChars n))) = String.mk (intChars n) from rfl,
    pyIntOfChars_lastSegment_intChars n]

theorem parseSeq_vInt (n : Int) : parseSeq (PyVal.vInt n) = Except.ok n :=
  parseSeq_mk_intChars n

theorem parseSeq_exp_mk_intChars (n : Int) :
    parseSeq (PyVal.vStr ("exp_" ++ String.mk (intChars n))) = Except.ok n := by
  unfold parseSeq
  rw [show pyStr (PyVal.vStr ("exp_" ++ String.mk (intChars n))) =
      "exp_" ++ String.mk (intChars n) from rfl,
    lastSegment_exp_append, pyIntOfChars_lastSegment_intChars n]

theorem loadExperimentData_congr (parseDt : String → Option Timestamp)
    (parseDtVal : PyVal → Option Timestamp)
    (toTdCol : List PyVal → Option (List PyVal)) (today : Timestamp)
    (readings : List Dict) (e1 e2 : PyVal) (fields : Option (List String))
    (order : String) (limit : Option Int) (h : parseSeq e1 = parseSeq e2) :
    loadExperimentData parseDt parseDtVal toTdCol today readings e1 fields order limit =
      loadExperimentData parseDt parseDtVal toTdCol today readings e2 fields order limit := by
  unfold loadExperimentData
  rw [h]

/-! ### Claim C8 -/

/-- C8: `load_experiment_data` treats the spellings `n`, `"<n>"` and
`"exp_<n>"` of an experiment id identically (the id is consumed only
through `_parse_seq`, which maps all three to the integer `n`), and an id
whose final underscore-separated segment is not an integer raises
`FirestoreUnavailable`. -/
theorem claim_C8_id_spellings (parseDt : String → Option Timestamp)
    (parseDtVal : PyVal → Option Timestamp)
    (toTdCol : List PyVal → Option (List PyVal)) (today : Timestamp)
    (readings : List Dict) (fields : Option (List String)) (order : String)
    (limit : Option Int) :
    (∀ n : Int,
      parseSeq (PyVal.vInt n) = Except.ok n
      ∧ loadExperimentData parseDt parseDtVal toTdCol today readings (PyVal.vInt n)
          fields order limit =
        loadExperimentData parseDt parseDtVal toTdCol today readings
          (PyVal.vStr (String.mk (intChars n))) fields order limit
      ∧ loadExperimentData parseDt parseDtVal toTdCol today readings
          (PyVal.vStr (String.mk (intChars n))) fields order limit =
        loadExperimentData parseDt parseDtVal toTdCol today readings
          (PyVal.vStr ("exp_" ++ String.mk (intChars n))) fields order limit)
  ∧ (∀ s : String, pyIntOfChars (lastSegment s) = none →
      loadExperimentData parseDt parseDtVal toTdCol today readings (PyVal.vStr s)
          fields order limit =
        Except.error (PyExc.firestoreUnavailable ("Bad experiment id: " ++ s))) := by
  constructor
  · intro n
    refine ⟨parseSeq_vInt n, ?_, ?_⟩
    · exact loadExperimentData_congr parseDt parseDtVal toTdCol today readings _ _
        fields order limit ((parseSeq_vInt n).trans (parseSeq_mk_intChars n).symm)
    · exact loadExperimentData_congr parseDt parseDtVal toTdCol today readings _ _
        fields order limit
        ((parseSeq_mk_intChars n).trans (parseSeq_exp_mk_intChars n).symm)
  · intro s h
    have hps : parseSeq (PyVal.vStr s) =
        Except.error (PyExc.firestoreUnavailable ("Bad experiment id: " ++ s)) := by
      unfold parseSeq
      rw [show pyStr (PyVal.vStr s) = s from rfl, h]
    unfold loadExperimentData
    rw [hps]

/-- Witness for C8 at `n = -7` and the malformed id `"exp_xx"`. -/
theorem claim_C8_id_spellings_witness :
    (parseSeq (PyVal.vInt (-7)) = Except.ok (-7)
      ∧ loadExperimentData trivialDtStr trivialDtVal trivialTdCol someToday []
          (PyVal.vInt (-7)) none "asc" none =
        loadExperimentData trivialDtStr trivialDtVal trivialTdCol someToday []
          (PyVal.vStr (String.mk (intChars (-7)))) none "asc" none)
  ∧ (pyIntOfChars (lastSegment "exp_xx") = none
      ∧ loadExperimentData trivialDtStr trivialDtVal trivialTdCol someToday []
          (PyVal.vStr "exp_xx") none "asc" none =
        Except.error (PyExc.firestoreUnavailable ("Bad experiment id: " ++ "exp_xx"))) :=
  ⟨⟨((claim_C8_id_spellings trivialDtStr trivialDtVal trivialTdCol someToday []
        none "asc" none).1 (-7)).1,
    ((claim_C8_id_spellings trivialDtStr trivialDtVal trivialTdCol someToday []
        none "asc" none).1 (-7)).2.1⟩,
   ⟨by decide,
    (claim_C8_id_spellings trivialDtStr trivialDtVal trivialTdCol someToday []
        none "asc" none).2 "exp_xx" (by decide)⟩⟩

/-! ### Claim C9 -/

set_option maxRecDepth 10000 in
/-- C9: `load_latest_experiment` is documented (and claimed) to load the
experiment with the highest sequence number among all readings with an
integer-coercible `experiment_sequence`.  It calls `list_experiments()`
with the default `limit = 200`, which keeps only the 200 lowest sequences;
with 201 distinct sequences 1..201 it therefore loads experiment 200, not
the highest one, 201 — contradicting its own docstring
(src/firestore_loader.py lines 321-323). -/
theorem claim_C9_latest_truncated :
    (loadLatestExperiment trivialDtStr trivialDtVal trivialTdCol someToday readings201
        none "asc" none).map
        (fun df => df.rows.map (fun r => dictGet r "experimental_run_number")) =
      Except.ok [PyVal.vInt 200]
  ∧ (∃ r ∈ readings201, expSeqOf r = some 201)
  ∧ (∀ r ∈ readings201, ∀ s : Int, expSeqOf r = some s → s ≤ 201) := by
  decide

/-! ### Structure of the DataFrame pipeline -/

theorem convertRuntime_cols (t : List PyVal → Option (List PyVal)) (df : DataFrame) :
    (convertRuntime t df).cols = df.cols := by
  unfold convertRuntime
  split <;> rfl

theorem mem_addCols (ks : List String) : ∀ (cs : List String) (k : String),
    k ∈ addCols cs ks ↔ k ∈ cs ∨ k ∈ ks := by
  induction ks with
  | nil => intro cs k; simp [addCols]
  | cons k1 rest ih =>
      intro cs k
      have hstep : addCols cs (k1 :: rest) =
          addCols (if k1 ∈ cs then cs else cs ++ [k1]) rest := rfl
      rw [hstep, ih]
      by_cases h : k1 ∈ cs
      · rw [if_pos h]
        constructor
        · rintro (hc | hr)
          · exact Or.inl hc
          · exact Or.inr (List.mem_cons_of_mem _ hr)
        · rintro (hc | hr)
          · exact Or.inl hc
          · rcases List.mem_cons.mp hr with rfl | hr2
            · exact Or.inl h
            · exact Or.inr hr2
      · rw [if_neg h]
        simp only [List.mem_append, List.mem_singleton, List.mem_cons]
        tauto

theorem mem_mkCols (rows : List Dict) (k : String) :
    k ∈ mkCols rows ↔ ∃ r ∈ rows, k ∈ dictKeys r := by
  unfold mkCols
  suffices h : ∀ (cs : List String),
      k ∈ rows.foldl (fun cs r => addCols cs (dictKeys r)) cs ↔
        k ∈ cs ∨ ∃ r ∈ rows, k ∈ dictKeys r by
    rw [h []]
    simp
  induction rows with
  | nil => intro cs; simp
  | cons r rest ih =>
      intro cs
      have hstep : (r :: rest).foldl (fun cs r2 => addCols cs (dictKeys r2)) cs =
          rest.foldl (fun cs r2 => addCols cs (dictKeys r2)) (addCols cs (dictKeys r)) := rfl
      rw [hstep, ih, mem_addCols]
      constructor
      · rintro ((hc | hr) | ⟨r2, hr2, hk⟩)
        · exact Or.inl hc
        · exact Or.inr ⟨r, List.mem_cons_self _ _, hr⟩
        · exact Or.inr ⟨r2, List.mem_cons_of_mem _ hr2, hk⟩
      · rintro (hc | ⟨r2, hr2, hk⟩)
        · exact Or.inl (Or.inl hc)
        · rcases List.mem_cons.mp hr2 with rfl | hr3
          · exact Or.inl (Or.inr hk)
          · exact Or.inr ⟨r2, hr3, hk⟩

theorem nodup_addCols (ks : List String) : ∀ (cs : List String), cs.Nodup →
    (addCols cs ks).Nodup := by
  induction ks with
  | nil => intro cs h; exact h
  | cons k1 rest ih =>
      intro cs h
      have hstep : addCols cs (k1 :: rest) =
          addCols (if k1 ∈ cs then cs else cs ++ [k1]) rest := rfl
      rw [hstep]
      apply ih
      by_cases hk : k1 ∈ cs
      · rw [if_pos hk]; exact h
      · rw [if_neg hk]
        exact List.Nodup.append h (List.nodup_singleton k1)
          (fun a hac hak => hk ((List.mem_singleton.mp hak) ▸ hac))

theorem nodup_mkCols (rows : List Dict) : (mkCols rows).Nodup := by
  unfold mkCols
  suffices h : ∀ (cs : List String), cs.Nodup →
      (rows.foldl (fun cs r => addCols cs (dictKeys r)) cs).Nodup from h [] (by simp)
  induction rows with
  | nil => intro cs h; exact h
  | cons r rest ih => intro cs h; exact ih _ (nodup_addCols (dictKeys r) cs h)

theorem mem_dictKeys_dictSet_self (d : Dict) (k : String) (v : PyVal) :
    k ∈ dictKeys (dictSet d k v) := by
  induction d with
  | nil => simp [dictSet, dictKeys]
  | cons kv rest ih =>
      rcases kv with ⟨k1, v1⟩
      by_cases h : k1 = k
      · subst h; simp [dictSet, dictKeys]
      · rw [show dictSet ((k1, v1) :: rest) k v = (k1, v1) :: dictSet rest k v by
            simp [dictSet, h]]
        simpa [dictKeys] using Or.inr ih

theorem timestamp_mem_keys_row (parseDt : String → Option Timestamp)
    (parseDtVal : PyVal → Option Timestamp) (today : Timestamp)
    (fields : Option (List String)) (d : Dict) (hint : Option String) :
    "timestamp" ∈ dictKeys (projectFields fields (rowFromReading parseDt parseDtVal today d hint)) := by
  have hrow : "timestamp" ∈ dictKeys (rowFromReading parseDt parseDtVal today d hint) :=
    mem_dictKeys_dictSet_self _ _ _
  rcases fields with _ | fs
  · exact hrow
  · unfold projectFields
    unfold dictKeys at hrow ⊢
    rcases List.mem_map.mp hrow with ⟨kv, hkv, hfst⟩
    apply List.mem_map.mpr
    refine ⟨kv, List.mem_filter.mpr ⟨hkv, ?_⟩, hfst⟩
    simp [hfst, coreColumns]

theorem rows0_timestamp (parseDt : String → Option Timestamp)
    (parseDtVal : PyVal → Option Timestamp) (today : Timestamp)
    (fields : Option (List String)) (readings : List Dict) (seq : Int) :
    ∀ r ∈ normalizedRows parseDt parseDtVal today fields readings seq,
      "timestamp" ∈ dictKeys r := by
  intro r hr
  unfold normalizedRows at hr
  rcases List.mem_map.mp hr with ⟨d, _, rfl⟩
  exact timestamp_mem_keys_row parseDt parseDtVal today fields d _

theorem applyLimit_sublist (order : String) (limit : Option Int) (rows : List Dict) :
    List.Sublist (applyLimit order limit rows) rows := by
  unfold applyLimit
  rcases limit with _ | l
  · exact List.Sublist.refl rows
  · show List.Sublist (if 0 < l then
        (if order = "asc" then rows.take l.toNat else rows.drop (rows.length - l.toNat))
      else rows) rows
    by_cases hl : 0 < l
    · rw [if_pos hl]
      by_cases ho : order = "asc"
      · rw [if_pos ho]; exact List.take_sublist _ _
      · rw [if_neg ho]; exact List.drop_sublist _ _
    · rw [if_neg hl]

theorem applyLimit_length (order : String) (l : Int) (rows : List Dict) (hl : 0 < l) :
    ((applyLimit order (some l) rows).length : Int) ≤ l := by
  unfold applyLimit
  show (((if 0 < l then
      (if order = "asc" then rows.take l.toNat else rows.drop (rows.length - l.toNat))
    else rows).length : Nat) : Int) ≤ l
  rw [if_pos hl]
  by_cases ho : order = "asc"
  · rw [if_pos ho]
    rw [List.length_take]
    omega
  · rw [if_neg ho]
    rw [List.length_drop]
    omega

theorem loadExperimentData_ok_cases (parseDt : String → Option Timestamp)
    (parseDtVal : PyVal → Option Timestamp)
    (toTdCol : List PyVal → Option (List PyVal)) (today : Timestamp)
    (readings : List Dict) (expId : PyVal) (fields : Option (List String))
    (order : String) (limit : Option Int) (seq : Int) (df : DataFrame)
    (hseq : parseSeq expId = Except.ok seq)
    (hload : loadExperimentData parseDt parseDtVal toTdCol today readings expId
        fields order limit = Except.ok df) :
    (normalizedRows parseDt parseDtVal today fields readings seq = [] ∧
      df = mkDataFrame []) ∨
    (normalizedRows parseDt parseDtVal today fields readings seq ≠ [] ∧
      df = orderColumns
        ⟨mkCols (normalizedRows parseDt parseDtVal today fields readings seq),
         applyLimit order limit (sortRows (decide (order = "asc"))
           (preSortRows parseDt parseDtVal toTdCol today fields readings seq))⟩) := by
  have heq : loadExperimentData parseDt parseDtVal toTdCol today readings expId
      fields order limit =
      (if (mkDataFrame (normalizedRows parseDt parseDtVal today fields readings seq)).rows.isEmpty
       then Except.ok (mkDataFrame (normalizedRows parseDt parseDtVal today fields readings seq))
       else Except.ok (orderColumns
         ⟨(sortStep order (convertRuntime toTdCol
             (mkDataFrame (normalizedRows parseDt parseDtVal today fields readings seq)))).cols,
          applyLimit order limit
            (sortStep order (convertRuntime toTdCol
              (mkDataFrame (normalizedRows parseDt parseDtVal today fields readings seq)))).rows⟩)) := by
    unfold loadExperimentData
    rw [hseq]
  rw [heq] at hload
  by_cases hemp :
      (mkDataFrame (normalizedRows parseDt parseDtVal today fields readings seq)).rows.isEmpty
  · rw [if_pos hemp] at hload
    have hr0 : normalizedRows parseDt parseDtVal today fields readings seq = [] := by
      simpa [mkDataFrame] using hemp
    left
    refine ⟨hr0, ?_⟩
    rw [← hr0]
    exact (Except.ok.inj hload).symm
  · rw [if_neg hemp] at hload
    right
    have hr0ne : normalizedRows parseDt parseDtVal today fields readings seq ≠ [] := by
      intro hh
      exact hemp (by rw [show (mkDataFrame (normalizedRows parseDt parseDtVal today fields
        readings seq)).rows = normalizedRows parseDt parseDtVal today fields readings seq
        from rfl, hh]; rfl)
    refine ⟨hr0ne, ?_⟩
    have hdf := (Except.ok.inj hload).symm
    have hts : "timestamp" ∈ (convertRuntime toTdCol
        (mkDataFrame (normalizedRows parseDt parseDtVal today fields readings seq))).cols := by
      rw [convertRuntime_cols]
      show "timestamp" ∈ mkCols (normalizedRows parseDt parseDtVal today fields readings seq)
      apply (mem_mkCols _ _).mpr
      obtain ⟨r, hrmem⟩ := List.exists_mem_of_ne_nil _ hr0ne
      exact ⟨r, hrmem, rows0_timestamp parseDt parseDtVal today fields readings seq r hrmem⟩
    have hsort : sortStep order (convertRuntime toTdCol
        (mkDataFrame (normalizedRows parseDt parseDtVal today fields readings seq))) =
        ⟨(convertRuntime toTdCol
            (mkDataFrame (normalizedRows parseDt parseDtVal today fields readings seq))).cols,
          sortRows (decide (order = "asc"))
            (convertRuntime toTdCol
              (mkDataFrame (normalizedRows parseDt parseDtVal today fields readings seq))).rows⟩ := by
      unfold sortStep
      rw [if_pos hts]
    rw [hsort] at hdf
    rw [convertRuntime_cols] at hdf
    exact hdf

/-! ### Column reordering: preferred columns first -/

theorem order_mem_core (p c0 E R : List String)
    (hE : E = p.filter (fun c => decide (c ∈ c0)))
    (hRsub : ∀ x ∈ R, x ∈ c0) (hRcomp : ∀ x ∈ c0, x ∉ E → x ∈ R) :
    ∀ x, x ∈ E ++ R ↔ x ∈ c0 := by
  intro x
  constructor
  · intro hx
    rcases List.mem_append.mp hx with h | h
    · rw [hE] at h
      exact of_decide_eq_true (List.mem_filter.mp h).2
    · exact hRsub x h
  · intro hx
    by_cases hxE : x ∈ E
    · exact List.mem_append.mpr (Or.inl hxE)
    · exact List.mem_append.mpr (Or.inr (hRcomp x hx hxE))

theorem order_spec_core (p c0 E R : List String)
    (hE : E = p.filter (fun c => decide (c ∈ c0)))
    (hp : ∀ x, x ∈ E ++ R ↔ x ∈ c0)
    (hRnp : ∀ x ∈ R, x ∉ p) :
    E ++ R = p.filter (fun c => decide (c ∈ E ++ R)) ++
      (E ++ R).filter (fun c => decide (c ∉ p)) := by
  have h1 : p.filter (fun c => decide (c ∈ E ++ R)) = E := by
    conv_rhs => rw [hE]
    apply List.filter_congr
    intro x _
    exact decide_eq_decide.mpr (hp x)
  have h2 : (E ++ R).filter (fun c => decide (c ∉ p)) = R := by
    rw [List.filter_append]
    have hEnil : E.filter (fun c => decide (c ∉ p)) = [] := by
      rw [List.filter_eq_nil_iff]
      intro a ha
      rw [hE] at ha
      have hap : a ∈ p := (List.mem_filter.mp ha).1
      simp [hap]
    have hRid : R.filter (fun c => decide (c ∉ p)) = R := by
      rw [List.filter_eq_self]
      intro a ha
      simpa using hRnp a ha
    rw [hEnil, hRid, List.nil_append]
  rw [h1, h2]

theorem orderColumns_cols_mem (c0 : List String) (rs : List Dict) (x : String) :
    x ∈ (orderColumns ⟨c0, rs⟩).cols ↔ x ∈ c0 := by
  have h := order_mem_core preferColumns c0
    (preferColumns.filter (fun c => decide (c ∈ c0)))
    (c0.filter (fun c => decide (c ∉ preferColumns.filter (fun c => decide (c ∈ c0)))))
    rfl
    (fun y hy => (List.mem_filter.mp hy).1)
    (fun y hy hyE => List.mem_filter.mpr ⟨hy, decide_eq_true hyE⟩)
  exact h x

theorem orderColumns_cols_spec (c0 : List String) (rs : List Dict) :
    (orderColumns ⟨c0, rs⟩).cols =
      preferColumns.filter (fun c => decide (c ∈ (orderColumns ⟨c0, rs⟩).cols)) ++
        (orderColumns ⟨c0, rs⟩).cols.filter (fun c => decide (c ∉ preferColumns)) := by
  have hRnp : ∀ x ∈ c0.filter
      (fun c => decide (c ∉ preferColumns.filter (fun c => decide (c ∈ c0)))),
      x ∉ preferColumns := by
    intro a ha
    have hac : a ∈ c0 := (List.mem_filter.mp ha).1
    have hnE : a ∉ preferColumns.filter (fun c => decide (c ∈ c0)) :=
      of_decide_eq_true (List.mem_filter.mp ha).2
    exact fun hap => hnE (List.mem_filter.mpr ⟨hap, decide_eq_true hac⟩)
  exact order_spec_core preferColumns c0
    (preferColumns.filter (fun c => decide (c ∈ c0)))
    (c0.filter (fun c => decide (c ∉ preferColumns.filter (fun c => decide (c ∈ c0)))))
    rfl (fun x => orderColumns_cols_mem c0 rs x) hRnp

theorem orderColumns_cols_nodup (c0 : List String) (rs : List Dict) (h : c0.Nodup) :
    (orderColumns ⟨c0, rs⟩).cols.Nodup := by
  show (preferColumns.filter (fun c => decide (c ∈ c0)) ++
    c0.filter (fun c => decide (c ∉ preferColumns.filter (fun c => decide (c ∈ c0))))).Nodup
  apply List.Nodup.append
  · exact List.Nodup.filter _ (by decide)
  · exact List.Nodup.filter _ h
  · intro a ha hb
    exact (of_decide_eq_true (List.mem_filter.mp hb).2) ha

theorem dashboardOrderedCols_mem (df : DataFrame) (x : String) :
    x ∈ dashboardOrderedCols df ↔ x ∈ df.cols := by
  have h := order_mem_core preferCols df.cols
    (preferCols.filter (fun c => decide (c ∈ df.cols)))
    (df.cols.filter (fun c => decide (c ∉ preferCols)))
    rfl
    (fun y hy => (List.mem_filter.mp hy).1)
    (fun y hy hyE => List.mem_filter.mpr ⟨hy, decide_eq_true
      (fun hyp => hyE (List.mem_filter.mpr ⟨hyp, decide_eq_true hy⟩))⟩)
  exact h x

theorem dashboardOrderedCols_spec (df : DataFrame) :
    dashboardOrderedCols df =
      preferCols.filter (fun c => decide (c ∈ dashboardOrderedCols df)) ++
        (dashboardOrderedCols df).filter (fun c => decide (c ∉ preferCols)) := by
  exact order_spec_core preferCols df.cols
    (preferCols.filter (fun c => decide (c ∈ df.cols)))
    (df.cols.filter (fun c => decide (c ∉ preferCols)))
    rfl (fun x => dashboardOrderedCols_mem df x)
    (fun a ha => of_decide_eq_true (List.mem_filter.mp ha).2)

theorem dashboardOrderedCols_perm (df : DataFrame) (h : df.cols.Nodup) :
    (dashboardOrderedCols df).Perm df.cols := by
  have hnodup : (dashboardOrderedCols df).Nodup := by
    apply List.Nodup.append
    · exact List.Nodup.filter _ (by decide)
    · exact List.Nodup.filter _ h
    · intro a ha hb
      have hap : a ∈ preferCols := (List.mem_filter.mp ha).1
      exact (of_decide_eq_true (List.mem_filter.mp hb).2) hap
  exact (List.perm_ext_iff_of_nodup hnodup h).mpr (dashboardOrderedCols_mem df)

/-! ### Claim C5 -/

/-- C5: on the happy path, `load_experiment_data` selects exactly the
readings whose stored `experiment_sequence` equals the integer parsed from
`exp_id` (the rows it returns with no row cap are a permutation of the
normalized rows of exactly those readings — `preSortRows` applies
`_row_from_reading`, the field projection and the runtime conversion to
`selectedReadings`, the equality-filtered readings); the returned
`timestamp` column is nondecreasing for `order = "asc"` and nonincreasing
for `order = "desc"` (missing timestamps sort last and are incomparable);
and a positive integer `limit` caps the row count at `limit`. -/
theorem claim_C5_select_sort_limit (parseDt : String → Option Timestamp)
    (parseDtVal : PyVal → Option Timestamp)
    (toTdCol : List PyVal → Option (List PyVal)) (today : Timestamp)
    (readings : List Dict) (expId : PyVal) (fields : Option (List String))
    (order : String) (limit : Option Int) (seq : Int) (df : DataFrame)
    (hseq : parseSeq expId = Except.ok seq)
    (hload : loadExperimentData parseDt parseDtVal toTdCol today readings expId
        fields order limit = Except.ok df) :
    (limit = none →
      df.rows.Perm (preSortRows parseDt parseDtVal toTdCol today fields readings seq))
  ∧ (order = "asc" →
      (df.rows.map tsOfRow).Pairwise (fun a b => optTsLeB true a b = true))
  ∧ (order = "desc" →
      (df.rows.map tsOfRow).Pairwise (fun a b => optTsLeB false a b = true))
  ∧ (∀ l : Int, limit = some l → 0 < l → (df.rows.length : Int) ≤ l) := by
  rcases loadExperimentData_ok_cases parseDt parseDtVal toTdCol today readings expId
      fields order limit seq df hseq hload with ⟨hr0, hdf⟩ | ⟨hr0ne, hdf⟩
  · have hrows : df.rows = [] := by rw [hdf]; rfl
    have hpre : preSortRows parseDt parseDtVal toTdCol today fields readings seq = [] := by
      unfold preSortRows
      rw [hr0]
      simp [convertRuntime, mkDataFrame, mkCols]
    refine ⟨?_, ?_, ?_, ?_⟩
    · intro _
      rw [hrows, hpre]
    · intro _
      rw [hrows]
      exact List.Pairwise.nil
    · intro _
      rw [hrows]
      exact List.Pairwise.nil
    · intro l _ _
      rw [hrows]
      simp
      omega
  · have hrows : df.rows = applyLimit order limit (sortRows (decide (order = "asc"))
        (preSortRows parseDt parseDtVal toTdCol today fields readings seq)) := by
      rw [hdf]; rfl
    refine ⟨?_, ?_, ?_, ?_⟩
    · intro hlim
      rw [hrows, hlim]
      show List.Perm (sortRows (decide (order = "asc"))
        (preSortRows parseDt parseDtVal toTdCol today fields readings seq)) _
      exact List.perm_insertionSort _ _
    · intro horder
      rw [hrows, horder]
      rw [show decide (("asc" : String) = "asc") = true from by decide]
      have hsorted : List.Pairwise (rowLe true)
          (sortRows true (preSortRows parseDt parseDtVal toTdCol today fields readings seq)) :=
        List.sorted_insertionSort _ _
      have hpair : ((sortRows true (preSortRows parseDt parseDtVal toTdCol today fields
          readings seq)).map tsOfRow).Pairwise (fun a b => optTsLeB true a b = true) :=
        List.pairwise_map.mpr hsorted
      exact List.Pairwise.sublist
        (List.Sublist.map tsOfRow (applyLimit_sublist "asc" limit _)) hpair
    · intro horder
      rw [hrows, horder]
      rw [show decide (("desc" : String) = "asc") = false from by decide]
      have hsorted : List.Pairwise (rowLe false)
          (sortRows false (preSortRows parseDt parseDtVal toTdCol today fields readings seq)) :=
        List.sorted_insertionSort _ _
      have hpair : ((sortRows false (preSortRows parseDt parseDtVal toTdCol today fields
          readings seq)).map tsOfRow).Pairwise (fun a b => optTsLeB false a b = true) :=
        List.pairwise_map.mpr hsorted
      exact List.Pairwise.sublist
        (List.Sublist.map tsOfRow (applyLimit_sublist "desc" limit _)) hpair
    · intro l hlim hl
      rw [hrows, hlim]
      exact applyLimit_length order l _ hl

/-- Witness for C5 at two readings of experiment 3, without and with a
row cap. -/
theorem claim_C5_select_sort_limit_witness :
    (parseSeq (PyVal.vStr "exp_3") = Except.ok 3
      ∧ loadExperimentData trivialDtStr trivialDtVal trivialTdCol someToday wReadings
          (PyVal.vStr "exp_3") none "asc" none = Except.ok wDfA
      ∧ wDfA.rows.Perm (preSortRows trivialDtStr trivialDtVal trivialTdCol someToday
          none wReadings 3)
      ∧ (wDfA.rows.map tsOfRow).Pairwise (fun a b => optTsLeB true a b = true))
  ∧ (loadExperimentData trivialDtStr trivialDtVal trivialTdCol someToday wReadings
        (PyVal.vStr "exp_3") none "asc" (some 1) = Except.ok wDfB
      ∧ (0 : Int) < 1 ∧ (wDfB.rows.length : Int) ≤ 1) :=
  ⟨⟨by decide, by decide,
    (claim_C5_select_sort_limit trivialDtStr trivialDtVal trivialTdCol someToday wReadings
      (PyVal.vStr "exp_3") none "asc" none 3 wDfA (by decide) (by decide)).1 rfl,
    (claim_C5_select_sort_limit trivialDtStr trivialDtVal trivialTdCol someToday wReadings
      (PyVal.vStr "exp_3") none "asc" none 3 wDfA (by decide) (by decide)).2.1 rfl⟩,
   ⟨by decide, by decide,
    (claim_C5_select_sort_limit trivialDtStr trivialDtVal trivialTdCol someToday wReadings
      (PyVal.vStr "exp_3") none "asc" (some 1) 3 wDfB (by decide) (by decide)).2.2.2
      1 rfl (by decide)⟩⟩

/-! ### Claim C6 -/

/-- C6: every non-empty DataFrame returned by `load_experiment_data` has
the stable column ordering of `_order_columns`: the columns begin with the
present members of [timestamp, weight, date, time, experimental_runtime,
experimental_run_number, station] in exactly that order, followed by all
remaining (non-preferred) columns. -/
theorem claim_C6_stable_columns (parseDt : String → Option Timestamp)
    (parseDtVal : PyVal → Option Timestamp)
    (toTdCol : List PyVal → Option (List PyVal)) (today : Timestamp)
    (readings : List Dict) (expId : PyVal) (fields : Option (List String))
    (order : String) (limit : Option Int) (seq : Int) (df : DataFrame)
    (hseq : parseSeq expId = Except.ok seq)
    (hload : loadExperimentData parseDt parseDtVal toTdCol today readings expId
        fields order limit = Except.ok df)
    (hne : df.rows ≠ []) :
    df.cols = preferColumns.filter (fun c => decide (c ∈ df.cols)) ++
      df.cols.filter (fun c => decide (c ∉ preferColumns)) := by
  rcases loadExperimentData_ok_cases parseDt parseDtVal toTdCol today readings expId
      fields order limit seq df hseq hload with ⟨hr0, hdf⟩ | ⟨hr0ne, hdf⟩
  · exact absurd (by rw [hdf]; rfl : df.rows = []) hne
  · rw [hdf]
    exact orderColumns_cols_spec _ _

/-- Witness for C6 at the loaded DataFrame of experiment 3. -/
theorem claim_C6_stable_columns_witness :
    (parseSeq (PyVal.vStr "exp_3") = Except.ok 3
      ∧ loadExperimentData trivialDtStr trivialDtVal trivialTdCol someToday wReadings
          (PyVal.vStr "exp_3") none "asc" none = Except.ok wDfA
      ∧ wDfA.rows ≠ [])
  ∧ wDfA.cols = preferColumns.filter (fun c => decide (c ∈ wDfA.cols)) ++
      wDfA.cols.filter (fun c => decide (c ∉ preferColumns)) :=
  ⟨⟨by decide, by decide, by decide⟩,
   claim_C6_stable_columns trivialDtStr trivialDtVal trivialTdCol someToday wReadings
     (PyVal.vStr "exp_3") none "asc" none 3 wDfA (by decide) (by decide) (by decide)⟩

/-! ### Claim C7 -/

/-- C7: for every non-empty DataFrame shown by the dashboard, the exported
CSV is the UTF-8 encoding of a comma-separated text whose first line is a
header row of the column names; its columns are the present members of
[weight, date, time, experimental_runtime, experimental_run_number,
station] in exactly that order followed by all remaining columns — and the
ordered column list is a permutation of the DataFrame columns, so no
column is dropped or duplicated. -/
theorem claim_C7_csv_format (parseDt : String → Option Timestamp)
    (parseDtVal : PyVal → Option Timestamp)
    (toTdCol : List PyVal → Option (List PyVal)) (today : Timestamp)
    (readings : List Dict) (expId : PyVal) (fields : Option (List String))
    (order : String) (limit : Option Int) (seq : Int) (df : DataFrame)
    (hseq : parseSeq expId = Except.ok seq)
    (hload : loadExperimentData parseDt parseDtVal toTdCol today readings expId
        fields order limit = Except.ok df)
    (hne : df.rows ≠ []) :
    dashboardOrderedCols df =
      preferCols.filter (fun c => decide (c ∈ dashboardOrderedCols df)) ++
        (dashboardOrderedCols df).filter (fun c => decide (c ∉ preferCols))
  ∧ (dashboardOrderedCols df).Perm df.cols
  ∧ dashboardCsv df =
      csvLine ((dashboardOrderedCols df).map csvEscape) ++ "\n" ++
        joinLines (df.rows.map (fun r => csvLine ((dashboardOrderedCols df).map (csvCell r))))
  ∧ dashboardCsvBytes df = (dashboardCsv df).toUTF8 := by
  have hnodup : df.cols.Nodup := by
    rcases loadExperimentData_ok_cases parseDt parseDtVal toTdCol today readings expId
        fields order limit seq df hseq hload with ⟨hr0, hdf⟩ | ⟨hr0ne, hdf⟩
    · exact absurd (by rw [hdf]; rfl : df.rows = []) hne
    · rw [hdf]
      exact orderColumns_cols_nodup _ _ (nodup_mkCols _)
  exact ⟨dashboardOrderedCols_spec df, dashboardOrderedCols_perm df hnodup, rfl, rfl⟩

/-- Witness for C7 at the loaded DataFrame of experiment 3. -/
theorem claim_C7_csv_format_witness :
    (parseSeq (PyVal.vStr "exp_3") = Except.ok 3
      ∧ loadExperimentData trivialDtStr trivialDtVal trivialTdCol someToday wReadings
          (PyVal.vStr "exp_3") none "asc" none = Except.ok wDfA
      ∧ wDfA.rows ≠ [])
  ∧ (dashboardOrderedCols wDfA).Perm wDfA.cols
  ∧ dashboardCsv wDfA =
      csvLine ((dashboardOrderedCols wDfA).map csvEscape) ++ "\n" ++
        joinLines (wDfA.rows.map (fun r => csvLine ((dashboardOrderedCols wDfA).map (csvCell r)))) :=
  ⟨⟨by decide, by decide, by decide⟩,
   (claim_C7_csv_format trivialDtStr trivialDtVal trivialTdCol someToday wReadings
     (PyVal.vStr "exp_3") none "asc" none 3 wDfA (by decide) (by decide) (by decide)).2.1,
   (claim_C7_csv_format trivialDtStr trivialDtVal trivialTdCol someToday wReadings
     (PyVal.vStr "exp_3") none "asc" none 3 wDfA (by decide) (by decide) (by decide)).2.2.1⟩

end Watercapture
